import Mathlib

/-!
A shallow embedding of `src/service/models.py` (a Product record store with a
validation/serialization layer) together with proofs about the claims of its
specification.

The embedding models:
* the fragment of Python `decimal.Decimal` that the source uses
  (string construction and `str`, i.e. to-scientific-string, and `==`);
* Python values (`PyVal`) as far as the source inspects them
  (`isinstance` checks on `int`/`float`/`Decimal`/`bool`/`str`,
  `str()` conversion, truthiness, and `getattr` on the `Category` enum);
* the `Product` record with its `serialize`, `deserialize`, `update`
  and `find_by_price` operations.

Machine-irrelevant abstractions are noted in doc comments at each definition.
-/

deriving instance DecidableEq for Except

/-! ## Characters and digits -/

/-- The decimal digit character for a digit value below ten. -/
def digitChar : Nat → Char
  | 0 => '0' | 1 => '1' | 2 => '2' | 3 => '3' | 4 => '4'
  | 5 => '5' | 6 => '6' | 7 => '7' | 8 => '8' | _ => '9'

/-- The numeric value of a decimal digit character. -/
def digitVal : Char → Nat
  | '0' => 0 | '1' => 1 | '2' => 2 | '3' => 3 | '4' => 4
  | '5' => 5 | '6' => 6 | '7' => 7 | '8' => 8 | _ => 9

/-- Recognizes the ten ASCII digit characters. -/
def isDigitCh (c : Char) : Bool :=
  ['0', '1', '2', '3', '4', '5', '6', '7', '8', '9'].contains c

/-- Characters Python strips as whitespace at the ends of a numeric string
(the ASCII whitespace set; the full Unicode set is not needed by any input
the repository handles). -/
def isSpaceCh (c : Char) : Bool :=
  [' ', '\t', '\n', '\r', '\x0b', '\x0c'].contains c

/-- Digit values rendered as characters, most significant first. -/
def digitsToChars (ds : List Nat) : List Char := ds.map digitChar

/-- Characters read back as digit values. -/
def charsToDigits (cs : List Char) : List Nat := cs.map digitVal

/-- Value of a least-significant-first digit list. -/
def valRev : List Nat → Nat
  | [] => 0
  | d :: t => d + 10 * valRev t

/-- Value of a most-significant-first digit list. -/
def digitsVal (ds : List Nat) : Nat := valRev ds.reverse

/-- Digits of `n`, least significant first, by repeated division;
fuel-structured so that the kernel can evaluate it. -/
def natToDigitsRevFuel : Nat → Nat → List Nat
  | 0, _ => []
  | fuel + 1, n => if n = 0 then [] else n % 10 :: natToDigitsRevFuel fuel (n / 10)

/-- Digits of a natural number, most significant first (`[0]` for zero). -/
def natDigits (n : Nat) : List Nat :=
  if n = 0 then [0] else (natToDigitsRevFuel (n + 1) n).reverse

theorem valRev_natToDigitsRevFuel (fuel n : Nat) (h : n < fuel) :
    valRev (natToDigitsRevFuel fuel n) = n := by
  induction fuel generalizing n with
  | zero => omega
  | succ fuel ih =>
    rw [natToDigitsRevFuel]
    by_cases h0 : n = 0
    · simp [h0, valRev]
    · rw [if_neg h0, valRev, ih (n / 10) (by omega)]
      omega

theorem digitsVal_natDigits (n : Nat) : digitsVal (natDigits n) = n := by
  unfold natDigits digitsVal
  by_cases h0 : n = 0
  · simp [h0, valRev]
  · rw [if_neg h0, List.reverse_reverse, valRev_natToDigitsRevFuel (n + 1) n (by omega)]

theorem natToDigitsRevFuel_lt_ten (fuel n : Nat) :
    ∀ d ∈ natToDigitsRevFuel fuel n, d < 10 := by
  induction fuel generalizing n with
  | zero => simp [natToDigitsRevFuel]
  | succ fuel ih =>
    rw [natToDigitsRevFuel]
    by_cases h0 : n = 0
    · simp [h0]
    · rw [if_neg h0]
      intro d hd
      rcases List.mem_cons.mp hd with h | h
      · omega
      · exact ih _ d h

theorem natDigits_lt_ten (n : Nat) : ∀ d ∈ natDigits n, d < 10 := by
  unfold natDigits
  by_cases h0 : n = 0
  · simp [h0]
  · rw [if_neg h0]
    intro d hd
    exact natToDigitsRevFuel_lt_ten _ _ d (List.mem_reverse.mp hd)

theorem digitVal_digitChar (d : Nat) (h : d < 10) : digitVal (digitChar d) = d := by
  interval_cases d <;> rfl

theorem charsToDigits_digitsToChars (ds : List Nat) (h : ∀ d ∈ ds, d < 10) :
    charsToDigits (digitsToChars ds) = ds := by
  unfold charsToDigits digitsToChars
  rw [List.map_map]
  induction ds with
  | nil => rfl
  | cons d t ih =>
    rw [List.map_cons]
    rw [Function.comp_apply, digitVal_digitChar d (h d (by simp))]
    rw [ih (fun x hx => h x (by simp [hx]))]

theorem isDigitCh_digitChar (d : Nat) (h : d < 10) : isDigitCh (digitChar d) = true := by
  interval_cases d <;> rfl

theorem toLower_digitChar (d : Nat) (h : d < 10) : (digitChar d).toLower = digitChar d := by
  interval_cases d <;> rfl

/-! ## The Python `decimal.Decimal` value model

A `Decimal` is a sign, and either a finite coefficient-and-exponent pair,
an infinity, a quiet NaN or a signaling NaN (each NaN with diagnostic
digits).  The coefficient is kept most significant digit first, exactly as
Python keeps it. -/

/-- A Python `decimal.Decimal` value. -/
inductive PyDec where
  | finite (sign : Bool) (digits : List Nat) (exp : Int)
  | inf (sign : Bool)
  | nan (sign : Bool) (diag : List Nat)
  | snan (sign : Bool) (diag : List Nat)
deriving DecidableEq

/-- Well-formedness of a coefficient as Python stores it: nonempty digits
below ten with no leading zero (except the single digit zero itself). -/
def digitsWF (ds : List Nat) : Prop :=
  (∀ d ∈ ds, d < 10) ∧ ds ≠ [] ∧ (ds.headD 0 ≠ 0 ∨ ds = [0])

instance (ds : List Nat) : Decidable (digitsWF ds) := by
  unfold digitsWF; infer_instance

/-- Well-formedness of a `Decimal` value: every value the Python constructor
produces satisfies this. -/
def PyDec.WF : PyDec → Prop
  | .finite _ ds _ => digitsWF ds
  | .inf _ => True
  | .nan _ diag => (∀ d ∈ diag, d < 10) ∧ diag.headD 1 ≠ 0
  | .snan _ diag => (∀ d ∈ diag, d < 10) ∧ diag.headD 1 ≠ 0

instance (d : PyDec) : Decidable d.WF := by
  cases d <;> (unfold PyDec.WF; infer_instance)

/-- True when the value is a (quiet or signaling) NaN. -/
def PyDec.isNaN : PyDec → Bool
  | .nan _ _ => true
  | .snan _ _ => true
  | _ => false

/-! ### `str` on a `Decimal` (to-scientific-string) -/

/-- Sign prefix of the printed form. -/
def signChars (sign : Bool) : List Char := if sign then ['-'] else []

/-- Printed exponent: an explicit sign followed by the digits. -/
def expChars (adj : Int) : List Char :=
  if 0 ≤ adj then '+' :: digitsToChars (natDigits adj.toNat)
  else '-' :: digitsToChars (natDigits (-adj).toNat)

/-- Body of the printed form of a finite decimal, following the
to-scientific-string rules Python's `Decimal.__str__` implements. -/
def decBodyChars (ds : List Nat) (e : Int) : List Char :=
  if e ≤ 0 ∧ -6 ≤ e + ds.length - 1 then
    if e = 0 then digitsToChars ds
    else if ds.length ≤ (-e).toNat then
      '0' :: '.' :: (List.replicate ((-e).toNat - ds.length) '0' ++ digitsToChars ds)
    else
      digitsToChars (ds.take (ds.length - (-e).toNat)) ++
        '.' :: digitsToChars (ds.drop (ds.length - (-e).toNat))
  else
    match ds with
    | [] => []
    | [d] => digitChar d :: 'E' :: expChars (e + ds.length - 1)
    | d :: rest => digitChar d :: '.' :: (digitsToChars rest ++ 'E' :: expChars (e + ds.length - 1))

/-- Characters of `str(d)` for a `Decimal` `d`. -/
def decStrChars : PyDec → List Char
  | .finite sign ds e => signChars sign ++ decBodyChars ds e
  | .inf sign => signChars sign ++ ['I', 'n', 'f', 'i', 'n', 'i', 't', 'y']
  | .nan sign diag => signChars sign ++ ['N', 'a', 'N'] ++ digitsToChars diag
  | .snan sign diag => signChars sign ++ ['s', 'N', 'a', 'N'] ++ digitsToChars diag

/-- `str(d)` for a `Decimal` `d`. -/
def decStr (d : PyDec) : String := String.mk (decStrChars d)

/-! ### The `Decimal` constructor (numeric-string parsing) -/

/-- Drops matching characters from both ends of a list. -/
def dropBothWhile (p : Char → Bool) (cs : List Char) : List Char :=
  ((cs.dropWhile p).reverse.dropWhile p).reverse

/-- Splits at the first character satisfying the predicate; the second
component is `none` when no character matches. -/
def splitOnFirst (p : Char → Bool) : List Char → List Char × Option (List Char)
  | [] => ([], none)
  | c :: t =>
    if p c then ([], some t)
    else
      let r := splitOnFirst p t
      (c :: r.1, r.2)

/-- Checks that every underscore in the string sits between two digits, the
placement rule for digit grouping in Python numeric strings. -/
def underscoreOKAux (prev : Char) : List Char → Bool
  | [] => true
  | c :: rest =>
    if c = '_' then
      match rest with
      | [] => false
      | d :: rest2 => isDigitCh prev && isDigitCh d && underscoreOKAux d rest2
    else underscoreOKAux c rest

/-- Underscore placement check for a whole string. -/
def underscoreOK : List Char → Bool
  | [] => true
  | c :: rest => if c = '_' then false else underscoreOKAux c rest

/-- Validates underscore placement and removes the underscores. -/
def deUnderscore (cs : List Char) : Option (List Char) :=
  if underscoreOK cs then some (cs.filter (fun c => !(c == '_'))) else none

/-- Normalizes a parsed coefficient: drop leading zeros, keeping one digit. -/
def normCoeff (ds : List Nat) : List Nat :=
  let t := ds.dropWhile (fun d => d == 0)
  if t.isEmpty then [0] else t

/-- Normalizes a parsed NaN diagnostic: leading zeros drop, and an
all-zero diagnostic is the empty diagnostic. -/
def normDiag (ds : List Nat) : List Nat := ds.dropWhile (fun d => d == 0)

/-- Parses an unsigned integer made only of digit characters. -/
def parseNatCore (cs : List Char) : Option Int :=
  if !cs.isEmpty && cs.all isDigitCh then some (Int.ofNat (digitsVal (charsToDigits cs)))
  else none

/-- Parses an optionally signed integer (the exponent part). -/
def parseSignedNat : List Char → Option Int
  | [] => none
  | c :: rest =>
    if c = '+' then parseNatCore rest
    else if c = '-' then (parseNatCore rest).map (fun n => -n)
    else parseNatCore (c :: rest)

/-- The exponent named after `e`/`E`: absent means zero, present must be a
signed digit string. -/
def exponentOf : Option (List Char) → Option Int
  | none => some 0
  | some ec => parseSignedNat ec

/-- Builds a finite decimal from the two digit runs of the mantissa: both
must be digit-only and at least one nonempty; the coefficient is their
concatenation normalized, the exponent drops by the fraction length. -/
def parseMantissaParts (sign : Bool) (ev : Int) (ipart fpart : List Char) : Option PyDec :=
  if ipart.all isDigitCh && fpart.all isDigitCh && !(ipart.isEmpty && fpart.isEmpty) then
    some (.finite sign (normCoeff (charsToDigits (ipart ++ fpart))) (ev - fpart.length))
  else none

/-- Splits the mantissa at its first point and interprets the two runs. -/
def parseMantissa (sign : Bool) (ev : Int) (mant : List Char) : Option PyDec :=
  parseMantissaParts sign ev (splitOnFirst (fun c => c = '.') mant).1
    ((splitOnFirst (fun c => c = '.') mant).2.getD [])

/-- Interprets the mantissa under an exponent that may have failed to parse. -/
def parseWithExp (sign : Bool) (evOpt : Option Int) (mant : List Char) : Option PyDec :=
  match evOpt with
  | none => none
  | some ev => parseMantissa sign ev mant

/-- Parses the numeric (non-special) body of a decimal string: an optional
exponent after `e`/`E`, and a mantissa of digits with at most one point. -/
def parseNumericChars (sign : Bool) (cs : List Char) : Option PyDec :=
  parseWithExp sign
    (exponentOf (splitOnFirst (fun c => c = 'e' || c = 'E') cs).2)
    (splitOnFirst (fun c => c = 'e' || c = 'E') cs).1

/-- Parses the part after the sign: the special values (case-insensitive)
or a numeric body. -/
def decParseUnsigned (sign : Bool) (cs : List Char) : Option PyDec :=
  let low := cs.map Char.toLower
  if low = ['i', 'n', 'f'] ∨ low = ['i', 'n', 'f', 'i', 'n', 'i', 't', 'y'] then
    some (.inf sign)
  else if low.take 4 = ['s', 'n', 'a', 'n'] ∧ (low.drop 4).all isDigitCh then
    some (.snan sign (normDiag (charsToDigits (low.drop 4))))
  else if low.take 3 = ['n', 'a', 'n'] ∧ (low.drop 3).all isDigitCh then
    some (.nan sign (normDiag (charsToDigits (low.drop 3))))
  else parseNumericChars sign cs

/-- Strips an optional leading sign and parses the rest. -/
def decParseSigned : List Char → Option PyDec
  | [] => none
  | c :: rest =>
    if c = '-' then decParseUnsigned true rest
    else if c = '+' then decParseUnsigned false rest
    else decParseUnsigned false (c :: rest)

/-- The `Decimal` string constructor: `some` on the numeric-string grammar
(after whitespace stripping and underscore removal), `none` exactly when
Python raises `InvalidOperation`.  Non-ASCII digits are outside the model. -/
def decParse (s : String) : Option PyDec :=
  match deUnderscore (dropBothWhile isSpaceCh s.toList) with
  | none => none
  | some cs => decParseSigned cs

/-! ### Numeric equality on decimals (`Decimal.__eq__`) -/

/-- Kernel-friendly power of ten over the integers. -/
def pow10 : Nat → Int
  | 0 => 1
  | k + 1 => 10 * pow10 k

/-- Signed integer value of a coefficient. -/
def decSigned (sign : Bool) (ds : List Nat) : Int :=
  (if sign then -1 else 1) * Int.ofNat (digitsVal ds)

/-- Numeric equality of two decimals, as `Decimal.__eq__` computes it:
finite values compare by their exact rational value, infinities by sign,
and a NaN is equal to nothing (Python additionally raises on a signaling
NaN; the model folds that case into inequality, which no claim exercises). -/
def decNumEq : PyDec → PyDec → Bool
  | .finite s1 d1 e1, .finite s2 d2 e2 =>
    decide (decSigned s1 d1 * pow10 (e1 - min e1 e2).toNat =
      decSigned s2 d2 * pow10 (e2 - min e1 e2).toNat)
  | .inf s1, .inf s2 => s1 == s2
  | _, _ => false

/-! ## The `Category` enum (models.py lines 24-31) -/

/-- Enumeration of valid Product Categories. -/
inductive Category where
  | UNKNOWN
  | CLOTHS
  | FOOD
  | HOUSEWARES
  | AUTOMOTIVE
  | TOOLS
deriving DecidableEq

/-- The `.name` of an enum member. -/
def Category.name : Category → String
  | .UNKNOWN => "UNKNOWN"
  | .CLOTHS => "CLOTHS"
  | .FOOD => "FOOD"
  | .HOUSEWARES => "HOUSEWARES"
  | .AUTOMOTIVE => "AUTOMOTIVE"
  | .TOOLS => "TOOLS"

/-- Member lookup by exact, case-sensitive name. -/
def categoryOfName (s : String) : Option Category :=
  if s = "UNKNOWN" then some .UNKNOWN
  else if s = "CLOTHS" then some .CLOTHS
  else if s = "FOOD" then some .FOOD
  else if s = "HOUSEWARES" then some .HOUSEWARES
  else if s = "AUTOMOTIVE" then some .AUTOMOTIVE
  else if s = "TOOLS" then some .TOOLS
  else none

/-- Names of non-member attributes that `getattr` nevertheless resolves on
the `Category` class, because attribute lookup on a class sees the class's
and its metaclass's attributes before the enum member map fails.  This is a
representative subset (Python exposes more, all inherited from `type` and
`Enum`); it contains every name the theorems below exercise. -/
def categoryClassAttrs : List String :=
  ["mro", "__members__", "__name__", "__qualname__", "__doc__", "__module__", "__class__", "__bases__"]

/-! ## Python values

`PyVal` covers the value shapes the source code distinguishes.  A float is
abstracted by its `repr` string (the only way the source consumes a float
is `Decimal(str(x))`); an object fetched from the `Category` class that is
not an enum member is abstracted by the attribute name that fetched it; any
other object is abstracted by its type name. -/

/-- A Python value, as far as `models.py` inspects one. -/
inductive PyVal where
  | pyNone
  | pyBool (b : Bool)
  | pyInt (n : Int)
  | pyFloat (rep : String)
  | pyStr (s : String)
  | pyDec (d : PyDec)
  | pyCat (c : Category)
  | pyCatAttr (s : String)
  | pyOther (ty : String)
deriving DecidableEq

/-- Characters of `str(n)` for an integer. -/
def intStrChars (n : Int) : List Char :=
  if n < 0 then '-' :: digitsToChars (natDigits (-n).toNat)
  else digitsToChars (natDigits n.toNat)

/-- `str(n)` for an integer. -/
def intStr (n : Int) : String := String.mk (intStrChars n)

/-- `str(v)`: Python string conversion for the values the model tracks. -/
def pyStrOf : PyVal → String
  | .pyNone => "None"
  | .pyBool true => "True"
  | .pyBool false => "False"
  | .pyInt n => intStr n
  | .pyFloat rep => rep
  | .pyStr s => s
  | .pyDec d => decStr d
  | .pyCat c => "Category." ++ c.name
  | .pyCatAttr s => "<attribute " ++ s ++ " of Category>"
  | .pyOther ty => "<" ++ ty ++ " object>"

/-- `type(v)` rendered as a short name (the source only embeds it into
error messages; the model abbreviates the `<class ...>` wrapper). -/
def pyTypeName : PyVal → String
  | .pyNone => "NoneType"
  | .pyBool _ => "bool"
  | .pyInt _ => "int"
  | .pyFloat _ => "float"
  | .pyStr _ => "str"
  | .pyDec _ => "Decimal"
  | .pyCat _ => "Category"
  | .pyCatAttr _ => "category attribute"
  | .pyOther ty => ty

/-- Python truthiness of a value.  A float's truth value is recovered from
its `repr` (the two zero floats print exactly as `0.0` and `-0.0`); enum
members are truthy regardless of their numeric value; other tracked objects
are truthy. -/
def pyTruthy : PyVal → Bool
  | .pyNone => false
  | .pyBool b => b
  | .pyInt n => n != 0
  | .pyFloat rep => !(rep == "0.0" || rep == "-0.0")
  | .pyStr s => s ≠ ""
  | .pyDec d =>
    match d with
    | .finite _ ds _ => digitsVal ds != 0
    | _ => true
  | .pyCat _ => true
  | .pyCatAttr _ => true
  | .pyOther _ => true

/-- The `isinstance(x, (int, float, Decimal))` test from the price branch of
`deserialize` (models.py line 87).  `True`/`False` pass it, because `bool`
is a subclass of `int` in Python. -/
def isNumericForPrice : PyVal → Bool
  | .pyInt _ => true
  | .pyFloat _ => true
  | .pyDec _ => true
  | .pyBool _ => true
  | _ => false

/-- The `isinstance(x, str)` test. -/
def isPyStr : PyVal → Bool
  | .pyStr _ => true
  | _ => false

/-- The `isinstance(x, bool)` test (models.py line 96). -/
def isPyBool : PyVal → Bool
  | .pyBool _ => true
  | _ => false

/-- `str.strip()`: whitespace stripped from both ends. -/
def pyStrip (s : String) : String := String.mk (dropBothWhile isSpaceCh s.toList)

/-- `str.strip(' "')` as used by `find_by_price` (models.py line 151):
space and double-quote characters stripped from both ends. -/
def stripSpaceQuote (s : String) : String :=
  String.mk (dropBothWhile (fun c => c = ' ' || c = '"') s.toList)

/-! ## Errors

`DataValidationError` carries a kind mirroring the message the source
builds; `PyExc` is the family of exceptions the body of `deserialize` can
raise before the `except` clauses reclassify them. -/

/-- Kinds of `DataValidationError` (models.py line 20), one per distinct
message the source constructs. -/
inductive DataValidationError where
  | invalidTypePrice (ty : String)
  | invalidTypeAvailable (ty : String)
  | invalidPrice
  | invalidAttribute (nm : String)
  | missingField (key : String)
  | badBody (msg : String)
  | emptyId
deriving DecidableEq

/-- A Python exception as raised inside the `try` block of `deserialize`:
either a `DataValidationError` raised directly, or one of the builtin
exceptions the `except` clauses reclassify.  `otherExc` stands for any
exception the handlers do not cover; no operation of the model raises it,
and the totality theorem below confirms none escapes. -/
inductive PyExc where
  | dvError (k : DataValidationError)
  | invalidOperation
  | attributeError (nm : String)
  | keyError (key : String)
  | typeError (msg : String)
  | otherExc (ty : String)
deriving DecidableEq

/-- The `except` clauses of `deserialize` (models.py lines 105-117): each
caught builtin exception is re-raised as a `DataValidationError`; a
`DataValidationError` raised inside the block propagates unchanged, and so
would any exception outside the caught set. -/
def handleExc : PyExc → PyExc
  | .invalidOperation => .dvError .invalidPrice
  | .attributeError nm => .dvError (.invalidAttribute nm)
  | .keyError key => .dvError (.missingField key)
  | .typeError msg => .dvError (.badBody msg)
  | e => e

/-! ## The `Product` record (models.py lines 34-43)

A freshly constructed `Product()` has every attribute `None`; SQLAlchemy
column types only constrain what can be flushed to storage, not what an
attribute can momentarily hold, so each field is a `PyVal`. -/

/-- A Product record. -/
structure Product where
  id : PyVal := .pyNone
  name : PyVal := .pyNone
  description : PyVal := .pyNone
  price : PyVal := .pyNone
  available : PyVal := .pyNone
  category : PyVal := .pyNone
deriving DecidableEq

/-- The external mapping (a Python dict with string keys). -/
abbrev PyDict := List (String × PyVal)

/-- Dictionary lookup, `data[key]` returning `none` where Python raises
`KeyError`. -/
def dictGet (data : PyDict) (key : String) : Option PyVal :=
  List.lookup key data

/-! ## `serialize` (models.py lines 68-78) -/

/-- The `self.category.name if self.category else Category.UNKNOWN.name`
expression: a falsy category (in particular `None`) yields `"UNKNOWN"`, an
enum member yields its name, and a truthy non-member raises
`AttributeError` when `.name` is fetched. -/
def catNameOf (v : PyVal) : Except PyExc String :=
  if pyTruthy v then
    match v with
    | .pyCat c => .ok c.name
    | _ => .error (.attributeError "name")
  else .ok Category.UNKNOWN.name

/-- Serializes a Product into a dictionary. -/
def Product.serialize (p : Product) : Except PyExc PyDict :=
  match catNameOf p.category with
  | .error e => .error e
  | .ok catName =>
    .ok [("id", p.id),
         ("name", p.name),
         ("description", p.description),
         ("price", .pyStr (pyStrOf p.price)),
         ("available", p.available),
         ("category", .pyStr catName)]

/-! ## `deserialize` (models.py lines 80-118) -/

/-- The price branch (models.py lines 86-94): a number (`int`, `float`,
`Decimal` — and `bool`, a subclass of `int`) is converted through its
string form; a string is stripped and parsed; anything else raises
`DataValidationError` directly.  A failed parse is the `InvalidOperation`
the surrounding handler turns into "Invalid price value". -/
def priceOfRaw (v : PyVal) : Except PyExc PyDec :=
  if isNumericForPrice v then
    match decParse (pyStrOf v) with
    | some d => .ok d
    | none => .error .invalidOperation
  else
    match v with
    | .pyStr s =>
      match decParse (pyStrip s) with
      | some d => .ok d
      | none => .error .invalidOperation
    | _ => .error (.dvError (.invalidTypePrice (pyTypeName v)))

/-- The `getattr(Category, x)` lookup (models.py line 104): an enum member
name yields the member; a name of a class or metaclass attribute yields
that (non-member) object; any other string raises `AttributeError`; a
non-string raises `TypeError`. -/
def getattrCategory : PyVal → Except PyExc PyVal
  | .pyStr s =>
    match categoryOfName s with
    | some c => .ok (.pyCat c)
    | none =>
      if categoryClassAttrs.contains s then .ok (.pyCatAttr s)
      else .error (.attributeError s)
  | v => .error (.typeError ("attribute name must be string, not " ++ pyTypeName v))

/-- The body of `deserialize`, assigning `self`'s attributes field by field
in source order and stopping at the first exception.  The returned record
is the state of `self` after the assignments that executed — Python does
not roll mutations back when it raises. -/
def deserializeSteps (p : Product) (data : PyDict) : Product × Option PyExc :=
  match dictGet data "name" with
  | none => (p, some (.keyError "name"))
  | some vn =>
    let p1 := { p with name := vn }
    match dictGet data "description" with
    | none => (p1, some (.keyError "description"))
    | some vd =>
      let p2 := { p1 with description := vd }
      match dictGet data "price" with
      | none => (p2, some (.keyError "price"))
      | some vp =>
        match priceOfRaw vp with
        | .error e => (p2, some e)
        | .ok dp =>
          let p3 := { p2 with price := .pyDec dp }
          match dictGet data "available" with
          | none => (p3, some (.keyError "available"))
          | some va =>
            if isPyBool va then
              let p4 := { p3 with available := va }
              match dictGet data "category" with
              | none => (p4, some (.keyError "category"))
              | some vc =>
                match getattrCategory vc with
                | .error e => (p4, some e)
                | .ok cv => ({ p4 with category := cv }, none)
            else (p3, some (.dvError (.invalidTypeAvailable (pyTypeName va))))

/-- Deserializes a Product from a dictionary.  The first component is the
state of the mutated record; the second is the returned record (`self`) or
the exception after the `except` clauses reclassified it. -/
def Product.deserialize (p : Product) (data : PyDict) : Product × Except PyExc Product :=
  match deserializeSteps p data with
  | (p1, none) => (p1, .ok p1)
  | (p1, some e) => (p1, .error (handleExc e))

/-! ### Per-field validity, for the error-precedence claim -/

/-- The failure, if any, that the `name` field contributes. -/
def fieldErrName (data : PyDict) : Option PyExc :=
  match dictGet data "name" with
  | none => some (.keyError "name")
  | some _ => none

/-- The failure, if any, that the `description` field contributes. -/
def fieldErrDescription (data : PyDict) : Option PyExc :=
  match dictGet data "description" with
  | none => some (.keyError "description")
  | some _ => none

/-- The failure, if any, that the `price` field contributes. -/
def fieldErrPrice (data : PyDict) : Option PyExc :=
  match dictGet data "price" with
  | none => some (.keyError "price")
  | some v =>
    match priceOfRaw v with
    | .error e => some e
    | .ok _ => none

/-- The failure, if any, that the `available` field contributes. -/
def fieldErrAvailable (data : PyDict) : Option PyExc :=
  match dictGet data "available" with
  | none => some (.keyError "available")
  | some v => if isPyBool v then none else some (.dvError (.invalidTypeAvailable (pyTypeName v)))

/-- The failure, if any, that the `category` field contributes. -/
def fieldErrCategory (data : PyDict) : Option PyExc :=
  match dictGet data "category" with
  | none => some (.keyError "category")
  | some v =>
    match getattrCategory v with
    | .error e => some e
    | .ok _ => none

/-- The first failing field's error, in source field order. -/
def firstFieldError (data : PyDict) : Option PyExc :=
  (fieldErrName data).orElse fun _ =>
    (fieldErrDescription data).orElse fun _ =>
      (fieldErrPrice data).orElse fun _ =>
        (fieldErrAvailable data).orElse fun _ =>
          fieldErrCategory data

/-! ## The record store

`update` and the finders run against the session/storage state.  The store
is the list of persisted records. -/

/-- The persistent store: the rows of the product table. -/
abbrev Store := List Product

/-- Modelled from the spec: the persistence effect of `db.session.commit()`
for `update` (SQLAlchemy, outside `src/`) — "Persists all current field
values for the row matching `id`". -/
def commitUpdate (s : Store) (p : Product) : Store :=
  List.map (fun r => if r.id = p.id then p else r) s

/-- The row whose primary key equals the given value. -/
def storeFind (s : Store) (k : PyVal) : Option Product :=
  List.find? (fun r => r.id == k) s

/-- Updates this Product in the database (models.py lines 55-60): a falsy
`id` (`None` or `0`) raises before anything is committed; otherwise the
current field values are committed for the row with this `id`. -/
def Product.update (p : Product) (s : Store) : Store × Except PyExc Unit :=
  if pyTruthy p.id then (commitUpdate s p, .ok ())
  else (s, .error (.dvError .emptyId))

/-- The price-argument normalization of `find_by_price` (models.py lines
149-153): a string is stripped of spaces and quotes and parsed as a
decimal; an `int` or `float` (and `bool`, a subclass of `int`) goes through
its string form; anything else — in particular a `Decimal` — passes
through unchanged.  A failed parse is an uncaught `InvalidOperation`. -/
def normalizePrice : PyVal → Except PyExc PyVal
  | .pyStr s =>
    match decParse (stripSpaceQuote s) with
    | some d => .ok (.pyDec d)
    | none => .error .invalidOperation
  | .pyInt n =>
    match decParse (pyStrOf (.pyInt n)) with
    | some d => .ok (.pyDec d)
    | none => .error .invalidOperation
  | .pyFloat rep =>
    match decParse (pyStrOf (.pyFloat rep)) with
    | some d => .ok (.pyDec d)
    | none => .error .invalidOperation
  | .pyBool b =>
    match decParse (pyStrOf (.pyBool b)) with
    | some d => .ok (.pyDec d)
    | none => .error .invalidOperation
  | v => .ok v

/-- The SQL equality test `cls.price == price_value` on a row: numeric
decimal equality; a comparison involving a non-decimal matches nothing. -/
def priceMatches (rowPrice : PyVal) (v : PyVal) : Bool :=
  match rowPrice, v with
  | .pyDec a, .pyDec b => decNumEq a b
  | _, _ => false

/-- Returns all Products with the given price (models.py lines 146-154). -/
def Product.find_by_price (s : Store) (price : PyVal) : Except PyExc (List Product) :=
  match normalizePrice price with
  | .error e => .error e
  | .ok v => .ok (List.filter (fun r => priceMatches r.price v) s)

/-! ## Basic laws of the string helpers -/

theorem dropWhile_eq_self_of (p : Char → Bool) (l : List Char)
    (h : ∀ c ∈ l, p c = false) : l.dropWhile p = l := by
  cases l with
  | nil => rfl
  | cons c t => rw [List.dropWhile_cons, h c (by simp), if_neg (by simp)]

theorem dropBothWhile_eq_self (p : Char → Bool) (l : List Char)
    (h : ∀ c ∈ l, p c = false) : dropBothWhile p l = l := by
  unfold dropBothWhile
  rw [dropWhile_eq_self_of p l h,
    dropWhile_eq_self_of p l.reverse (fun c hc => h c (List.mem_reverse.mp hc)),
    List.reverse_reverse]

theorem underscoreOKAux_of_no_underscore (prev : Char) (l : List Char)
    (h : ∀ c ∈ l, c ≠ '_') : underscoreOKAux prev l = true := by
  induction l generalizing prev with
  | nil => rfl
  | cons c t ih =>
    have hc : ¬(c = '_') := h c (by simp)
    cases t with
    | nil =>
      show (if c = '_' then false else underscoreOKAux c []) = true
      rw [if_neg hc]
      rfl
    | cons d t2 =>
      show (if c = '_' then isDigitCh prev && isDigitCh d && underscoreOKAux d t2
            else underscoreOKAux c (d :: t2)) = true
      rw [if_neg hc]
      exact ih c (fun x hx => h x (by simp [hx]))

theorem deUnderscore_eq_self (l : List Char) (h : ∀ c ∈ l, c ≠ '_') :
    deUnderscore l = some l := by
  unfold deUnderscore
  have hok : underscoreOK l = true := by
    cases l with
    | nil => rfl
    | cons c t =>
      rw [underscoreOK, if_neg (h c (by simp))]
      exact underscoreOKAux_of_no_underscore c t (fun x hx => h x (by simp [hx]))
  rw [hok, if_pos rfl, List.filter_eq_self.mpr]
  intro a ha
  simp [h a ha]

theorem splitOnFirst_of_none (p : Char → Bool) (l : List Char)
    (h : ∀ c ∈ l, p c = false) : splitOnFirst p l = (l, none) := by
  induction l with
  | nil => rfl
  | cons c t ih =>
    rw [splitOnFirst, if_neg (by simp [h c (by simp)])]
    rw [ih (fun x hx => h x (by simp [hx]))]

theorem splitOnFirst_of_append (p : Char → Bool) (a x : List Char) (c : Char)
    (ha : ∀ y ∈ a, p y = false) (hc : p c = true) :
    splitOnFirst p (a ++ c :: x) = (a, some x) := by
  induction a with
  | nil => simp [splitOnFirst, hc]
  | cons y t ih =>
    rw [List.cons_append, splitOnFirst, if_neg (by simp [ha y (by simp)])]
    rw [ih (fun z hz => ha z (by simp [hz]))]

theorem normCoeff_of_WF (ds : List Nat) (h : digitsWF ds) : normCoeff ds = ds := by
  obtain ⟨-, hne, hhead⟩ := h
  rcases hhead with hhead | hzero
  · cases ds with
    | nil => exact absurd rfl hne
    | cons d t =>
      simp only [List.headD_cons] at hhead
      unfold normCoeff
      simp [List.dropWhile_cons, hhead]
  · subst hzero
    rfl

theorem normDiag_of_WF (ds : List Nat) (h : ds.headD 1 ≠ 0) : normDiag ds = ds := by
  cases ds with
  | nil => rfl
  | cons d t =>
    simp only [List.headD_cons] at h
    unfold normDiag
    rw [List.dropWhile_cons, if_neg (by simp [h])]

theorem toList_mk (l : List Char) : (String.mk l).toList = l := rfl

/-- The facts about a digit character the parsing proofs use: it is a digit,
lowercasing fixes it, it is none of the structural characters of the
decimal grammar, and it is not whitespace. -/
theorem digitChar_facts (k : Nat) (h : k < 10) :
    isDigitCh (digitChar k) = true ∧ (digitChar k).toLower = digitChar k ∧
      digitChar k ∉ (['-', '+', '.', '_', 'e', 'E', 'i', 's', 'n', '"'] : List Char) ∧
      isSpaceCh (digitChar k) = false := by
  interval_cases k <;> exact ⟨rfl, rfl, by decide, rfl⟩

theorem natDigits_ne_nil (n : Nat) : natDigits n ≠ [] := by
  unfold natDigits
  by_cases h0 : n = 0
  · simp [h0]
  · rw [if_neg h0]
    intro hrev
    have := congrArg valRev (List.reverse_eq_nil_iff.mp hrev)
    rw [valRev_natToDigitsRevFuel (n + 1) n (by omega)] at this
    exact h0 (by simpa [valRev] using this)

theorem parseNatCore_digits (m : Nat) :
    parseNatCore (digitsToChars (natDigits m)) = some (Int.ofNat m) := by
  unfold parseNatCore
  have hne : (digitsToChars (natDigits m)).isEmpty = false := by
    cases hd : natDigits m with
    | nil => exact absurd hd (natDigits_ne_nil m)
    | cons a t => simp [digitsToChars, hd]
  have hall : (digitsToChars (natDigits m)).all isDigitCh = true := by
    rw [List.all_eq_true]
    intro c hc
    obtain ⟨k, hk, rfl⟩ := List.mem_map.mp hc
    exact isDigitCh_digitChar k (natDigits_lt_ten m k hk)
  rw [if_pos (by rw [hne, hall]; rfl)]
  rw [charsToDigits_digitsToChars _ (natDigits_lt_ten m), digitsVal_natDigits]

theorem parseSignedNat_expChars (adj : Int) : parseSignedNat (expChars adj) = some adj := by
  unfold expChars
  by_cases hpos : 0 ≤ adj
  · rw [if_pos hpos]
    show parseSignedNat ('+' :: digitsToChars (natDigits adj.toNat)) = some adj
    rw [parseSignedNat, if_pos rfl, parseNatCore_digits]
    rw [show Int.ofNat adj.toNat = ((adj.toNat : Nat) : Int) from rfl,
      Int.toNat_of_nonneg hpos]
  · rw [if_neg hpos]
    show parseSignedNat ('-' :: digitsToChars (natDigits (-adj).toNat)) = some adj
    rw [parseSignedNat, if_neg (by decide), if_pos rfl, parseNatCore_digits]
    show some (-(Int.ofNat (-adj).toNat)) = some adj
    rw [show Int.ofNat (-adj).toNat = (((-adj).toNat : Nat) : Int) from rfl,
      Int.toNat_of_nonneg (by omega), neg_neg]

/-- A character of a printed decimal is neither whitespace nor an
underscore, so the constructor's stripping phases leave it alone. -/
def PlainCh (c : Char) : Prop := isSpaceCh c = false ∧ c ≠ '_'

theorem plainCh_digitChar (k : Nat) (h : k < 10) : PlainCh (digitChar k) := by
  obtain ⟨-, -, hmem, hsp⟩ := digitChar_facts k h
  refine ⟨hsp, fun he => hmem ?_⟩
  rw [he]
  decide

theorem plain_digitsToChars (ds : List Nat) (h : ∀ d ∈ ds, d < 10) :
    ∀ c ∈ digitsToChars ds, PlainCh c := by
  intro c hc
  obtain ⟨k, hk, rfl⟩ := List.mem_map.mp hc
  exact plainCh_digitChar k (h k hk)

theorem plain_expChars (adj : Int) : ∀ c ∈ expChars adj, PlainCh c := by
  intro c hc
  unfold expChars at hc
  split at hc <;>
  · rcases List.mem_cons.mp hc with rfl | hc2
    · exact ⟨rfl, by decide⟩
    · exact plain_digitsToChars _ (natDigits_lt_ten _) c hc2

theorem plain_decBodyChars (ds : List Nat) (e : Int) (h : ∀ d ∈ ds, d < 10) :
    ∀ c ∈ decBodyChars ds e, PlainCh c := by
  intro c hc
  unfold decBodyChars at hc
  by_cases h1 : e ≤ 0 ∧ -6 ≤ e + ds.length - 1
  · rw [if_pos h1] at hc
    by_cases h2 : e = 0
    · rw [if_pos h2] at hc
      exact plain_digitsToChars ds h c hc
    · rw [if_neg h2] at hc
      by_cases h3 : ds.length ≤ (-e).toNat
      · rw [if_pos h3] at hc
        rcases List.mem_cons.mp hc with rfl | hc2
        · exact ⟨rfl, by decide⟩
        rcases List.mem_cons.mp hc2 with rfl | hc3
        · exact ⟨rfl, by decide⟩
        rcases List.mem_append.mp hc3 with hc4 | hc4
        · rw [List.eq_of_mem_replicate hc4]
          exact ⟨rfl, by decide⟩
        · exact plain_digitsToChars ds h c hc4
      · rw [if_neg h3] at hc
        rcases List.mem_append.mp hc with hc2 | hc2
        · exact plain_digitsToChars _ (fun d hd => h d (List.take_subset _ _ hd)) c hc2
        rcases List.mem_cons.mp hc2 with rfl | hc3
        · exact ⟨rfl, by decide⟩
        · exact plain_digitsToChars _ (fun d hd => h d (List.drop_subset _ _ hd)) c hc3
  · rw [if_neg h1] at hc
    match ds, hc with
    | [d0], hc =>
      rcases List.mem_cons.mp hc with rfl | hc2
      · exact plainCh_digitChar d0 (h d0 (by simp))
      rcases List.mem_cons.mp hc2 with rfl | hc3
      · exact ⟨rfl, by decide⟩
      · exact plain_expChars _ c hc3
    | d0 :: d1 :: rest, hc =>
      rcases List.mem_cons.mp hc with rfl | hc2
      · exact plainCh_digitChar d0 (h d0 (by simp))
      rcases List.mem_cons.mp hc2 with rfl | hc3
      · exact ⟨rfl, by decide⟩
      rcases List.mem_append.mp hc3 with hc4 | hc4
      · exact plain_digitsToChars _ (fun d hd => h d (by simp [hd])) c hc4
      rcases List.mem_cons.mp hc4 with rfl | hc5
      · exact ⟨rfl, by decide⟩
      · exact plain_expChars _ c hc5

theorem plain_decStrChars (d : PyDec) (h : d.WF) : ∀ c ∈ decStrChars d, PlainCh c := by
  have hsign : ∀ (b : Bool), ∀ c ∈ signChars b, PlainCh c := by
    intro b c hc
    cases b with
    | false => simp [signChars] at hc
    | true =>
      simp only [signChars, if_pos] at hc
      rcases List.mem_singleton.mp hc with rfl
      exact ⟨rfl, by decide⟩
  intro c hc
  cases d with
  | finite sign ds e =>
    rcases List.mem_append.mp hc with hc1 | hc1
    · exact hsign sign c hc1
    · exact plain_decBodyChars ds e h.1 c hc1
  | inf sign =>
    rcases List.mem_append.mp hc with hc1 | hc1
    · exact hsign sign c hc1
    · fin_cases hc1 <;> exact ⟨rfl, by decide⟩
  | nan sign diag =>
    rcases List.mem_append.mp hc with hc1 | hc1
    · rcases List.mem_append.mp hc1 with hc2 | hc2
      · exact hsign sign c hc2
      · fin_cases hc2 <;> exact ⟨rfl, by decide⟩
    · exact plain_digitsToChars diag h.1 c hc1
  | snan sign diag =>
    rcases List.mem_append.mp hc with hc1 | hc1
    · rcases List.mem_append.mp hc1 with hc2 | hc2
      · exact hsign sign c hc2
      · fin_cases hc2 <;> exact ⟨rfl, by decide⟩
    · exact plain_digitsToChars diag h.1 c hc1

/-! ## Printed decimals parse back to themselves -/

theorem splitOnFirst_cons_of_neg (p : Char → Bool) (c : Char) (l : List Char)
    (hc : p c = false) :
    splitOnFirst p (c :: l) = (c :: (splitOnFirst p l).1, (splitOnFirst p l).2) := by
  rw [splitOnFirst, if_neg (by simp [hc])]

theorem splitOnFirst_cons_of_pos (p : Char → Bool) (c : Char) (l : List Char)
    (hc : p c = true) : splitOnFirst p (c :: l) = ([], some l) := by
  rw [splitOnFirst, if_pos hc]

theorem digitChar_ne_grammar (k : Nat) (h : k < 10) :
    digitChar k ≠ 'e' ∧ digitChar k ≠ 'E' ∧ digitChar k ≠ '.' ∧
      digitChar k ≠ '-' ∧ digitChar k ≠ '+' := by
  interval_cases k <;> exact ⟨by decide, by decide, by decide, by decide, by decide⟩

theorem noExpCh_digitsToChars (ds : List Nat) (h : ∀ d ∈ ds, d < 10) :
    ∀ c ∈ digitsToChars ds, (decide (c = 'e') || decide (c = 'E')) = false := by
  intro c hc
  obtain ⟨k, hk, rfl⟩ := List.mem_map.mp hc
  obtain ⟨h1, h2, -, -, -⟩ := digitChar_ne_grammar k (h k hk)
  simp [h1, h2]

theorem noDotCh_digitsToChars (ds : List Nat) (h : ∀ d ∈ ds, d < 10) :
    ∀ c ∈ digitsToChars ds, decide (c = '.') = false := by
  intro c hc
  obtain ⟨k, hk, rfl⟩ := List.mem_map.mp hc
  obtain ⟨-, -, h3, -, -⟩ := digitChar_ne_grammar k (h k hk)
  simp [h3]

theorem allDigit_digitsToChars (ds : List Nat) (h : ∀ d ∈ ds, d < 10) :
    (digitsToChars ds).all isDigitCh = true := by
  rw [List.all_eq_true]
  intro c hc
  obtain ⟨k, hk, rfl⟩ := List.mem_map.mp hc
  exact isDigitCh_digitChar k (h k hk)

theorem allDigit_replicate_zero (k : Nat) :
    (List.replicate k '0').all isDigitCh = true := by
  rw [List.all_eq_true]
  intro c hc
  rw [List.eq_of_mem_replicate hc]
  decide

theorem dropWhile0_replicate (k : Nat) (ds : List Nat) :
    List.dropWhile (fun d => d == 0) (List.replicate k 0 ++ ds) =
      List.dropWhile (fun d => d == 0) ds := by
  induction k with
  | zero => rfl
  | succ k ih => simp [List.replicate_succ, List.dropWhile_cons, ih]

theorem normCoeff_zero_pad (k : Nat) (ds : List Nat) (h : digitsWF ds) :
    normCoeff (0 :: (List.replicate k 0 ++ ds)) = ds := by
  have hdw : List.dropWhile (fun d => d == 0) (0 :: (List.replicate k 0 ++ ds)) =
      List.dropWhile (fun d => d == 0) ds := by
    rw [List.dropWhile_cons]
    simp [dropWhile0_replicate k ds]
  have hres := normCoeff_of_WF ds h
  unfold normCoeff at hres ⊢
  rw [hdw]
  exact hres

theorem parseNumeric_decBody (sign : Bool) (ds : List Nat) (e : Int) (h : digitsWF ds) :
    parseNumericChars sign (decBodyChars ds e) = some (.finite sign ds e) := by
  obtain ⟨hlt, hne, hhead⟩ := h
  have hdslen : 0 < ds.length := List.length_pos.mpr hne
  unfold decBodyChars
  by_cases h1 : e ≤ 0 ∧ -6 ≤ e + ds.length - 1
  · rw [if_pos h1]
    by_cases h2 : e = 0
    · subst h2
      rw [if_pos rfl]
      unfold parseNumericChars
      rw [splitOnFirst_of_none _ _ (noExpCh_digitsToChars ds hlt)]
      show parseMantissa sign 0 (digitsToChars ds) = _
      unfold parseMantissa
      rw [splitOnFirst_of_none _ _ (noDotCh_digitsToChars ds hlt)]
      show parseMantissaParts sign 0 (digitsToChars ds) [] = _
      have hie : (digitsToChars ds).isEmpty = false := by
        cases ds with
        | nil => exact absurd rfl hne
        | cons a t => simp [digitsToChars]
      unfold parseMantissaParts
      rw [if_pos (by rw [allDigit_digitsToChars ds hlt]; simp [hie])]
      rw [List.append_nil, charsToDigits_digitsToChars ds hlt,
        normCoeff_of_WF ds ⟨hlt, hne, hhead⟩]
      simp
    · rw [if_neg h2]
      by_cases h3 : ds.length ≤ (-e).toNat
      · rw [if_pos h3]
        have hnoE : ∀ c ∈ ('0' :: '.' ::
            (List.replicate ((-e).toNat - ds.length) '0' ++ digitsToChars ds)),
            (decide (c = 'e') || decide (c = 'E')) = false := by
          intro c hc
          rcases List.mem_cons.mp hc with rfl | hc2
          · decide
          rcases List.mem_cons.mp hc2 with rfl | hc3
          · decide
          rcases List.mem_append.mp hc3 with hc4 | hc4
          · rw [List.eq_of_mem_replicate hc4]
            decide
          · exact noExpCh_digitsToChars ds hlt c hc4
        unfold parseNumericChars
        rw [splitOnFirst_of_none _ _ hnoE]
        show parseMantissa sign 0 _ = _
        unfold parseMantissa
        rw [splitOnFirst_cons_of_neg _ _ _ (by decide),
          splitOnFirst_cons_of_pos _ _ _ (by decide)]
        show parseMantissaParts sign 0 ['0']
          (List.replicate ((-e).toNat - ds.length) '0' ++ digitsToChars ds) = _
        unfold parseMantissaParts
        rw [if_pos (by
          rw [List.all_append, allDigit_replicate_zero, allDigit_digitsToChars ds hlt]
          simp [show isDigitCh '0' = true from rfl])]
        have hco : charsToDigits (['0'] ++
            (List.replicate ((-e).toNat - ds.length) '0' ++ digitsToChars ds)) =
            0 :: (List.replicate ((-e).toNat - ds.length) 0 ++ ds) := by
          unfold charsToDigits
          rw [List.map_append, List.map_append, List.map_replicate,
            show digitVal '0' = 0 from rfl]
          have h2 : List.map digitVal (digitsToChars ds) = ds :=
            charsToDigits_digitsToChars ds hlt
          rw [h2, show List.map digitVal ['0'] = [0] from rfl]
          rfl
        rw [hco, normCoeff_zero_pad _ ds ⟨hlt, hne, hhead⟩]
        have hexp : (0 : Int) -
            ((List.replicate ((-e).toNat - ds.length) '0' ++ digitsToChars ds).length : Int) =
            e := by
          rw [List.length_append, List.length_replicate]
          unfold digitsToChars
          rw [List.length_map]
          omega
        rw [hexp]
      · rw [if_neg h3]
        have htlt : ∀ d ∈ ds.take (ds.length - (-e).toNat), d < 10 :=
          fun d hd => hlt d (List.take_subset _ _ hd)
        have hdlt : ∀ d ∈ ds.drop (ds.length - (-e).toNat), d < 10 :=
          fun d hd => hlt d (List.drop_subset _ _ hd)
        have hnoE : ∀ c ∈ (digitsToChars (ds.take (ds.length - (-e).toNat)) ++
            '.' :: digitsToChars (ds.drop (ds.length - (-e).toNat))),
            (decide (c = 'e') || decide (c = 'E')) = false := by
          intro c hc
          rcases List.mem_append.mp hc with hc2 | hc2
          · exact noExpCh_digitsToChars _ htlt c hc2
          rcases List.mem_cons.mp hc2 with rfl | hc3
          · decide
          · exact noExpCh_digitsToChars _ hdlt c hc3
        unfold parseNumericChars
        rw [splitOnFirst_of_none _ _ hnoE]
        show parseMantissa sign 0 _ = _
        unfold parseMantissa
        rw [splitOnFirst_of_append _ _ _ '.' (noDotCh_digitsToChars _ htlt) (by decide)]
        show parseMantissaParts sign 0 (digitsToChars (ds.take (ds.length - (-e).toNat)))
          (digitsToChars (ds.drop (ds.length - (-e).toNat))) = _
        have hie : (digitsToChars (ds.take (ds.length - (-e).toNat))).isEmpty = false := by
          have hL : (digitsToChars (ds.take (ds.length - (-e).toNat))).length =
              min (ds.length - (-e).toNat) ds.length := by
            unfold digitsToChars
            rw [List.length_map, List.length_take]
          cases hcs : digitsToChars (ds.take (ds.length - (-e).toNat)) with
          | nil =>
            rw [hcs] at hL
            simp at hL
            omega
          | cons a t => simp
        unfold parseMantissaParts
        rw [if_pos (by
          rw [allDigit_digitsToChars _ htlt, allDigit_digitsToChars _ hdlt, hie]
          simp)]
        have hco : charsToDigits (digitsToChars (ds.take (ds.length - (-e).toNat)) ++
            digitsToChars (ds.drop (ds.length - (-e).toNat))) = ds := by
          unfold charsToDigits digitsToChars
          rw [← List.map_append, List.take_append_drop]
          exact charsToDigits_digitsToChars ds hlt
        rw [hco, normCoeff_of_WF ds ⟨hlt, hne, hhead⟩]
        have hexp : (0 : Int) -
            ((digitsToChars (ds.drop (ds.length - (-e).toNat))).length : Int) = e := by
          unfold digitsToChars
          rw [List.length_map, List.length_drop]
          omega
        rw [hexp]
  · rw [if_neg h1]
    cases ds with
    | nil => exact absurd rfl hne
    | cons d0 tail =>
      cases tail with
      | nil =>
        show parseNumericChars sign
          (digitChar d0 :: 'E' :: expChars (e + (([d0] : List Nat).length : Int) - 1)) = _
        obtain ⟨hg1, hg2, hg3, -, -⟩ := digitChar_ne_grammar d0 (hlt d0 (by simp))
        unfold parseNumericChars
        rw [splitOnFirst_cons_of_neg _ _ _ (by simp [hg1, hg2]),
          splitOnFirst_cons_of_pos _ _ _ (by decide)]
        show parseWithExp sign (exponentOf (some (expChars (e + (([d0] : List Nat).length : Int) - 1))))
          [digitChar d0] = _
        rw [show exponentOf (some (expChars (e + (([d0] : List Nat).length : Int) - 1))) =
            parseSignedNat (expChars (e + (([d0] : List Nat).length : Int) - 1)) from rfl,
          parseSignedNat_expChars]
        show parseMantissa sign _ [digitChar d0] = _
        unfold parseMantissa
        rw [splitOnFirst_of_none _ _ (by
          intro c hc
          rcases List.mem_singleton.mp hc with rfl
          simp [hg3])]
        show parseMantissaParts sign _ [digitChar d0] [] = _
        unfold parseMantissaParts
        rw [if_pos (by simp [isDigitCh_digitChar d0 (hlt d0 (by simp))])]
        rw [List.append_nil,
          show charsToDigits [digitChar d0] = [digitVal (digitChar d0)] from rfl,
          digitVal_digitChar d0 (hlt d0 (by simp)),
          normCoeff_of_WF [d0] ⟨hlt, hne, hhead⟩]
        have hexp : (e + (([d0] : List Nat).length : Int) - 1) -
            ((([] : List Char)).length : Int) = e := by simp
        rw [hexp]
      | cons d1 rest =>
        have hrlt : ∀ d ∈ d1 :: rest, d < 10 := fun d hd => hlt d (by simp [hd])
        obtain ⟨hg1, hg2, hg3, -, -⟩ := digitChar_ne_grammar d0 (hlt d0 (by simp))
        show parseNumericChars sign
          (digitChar d0 :: '.' :: (digitsToChars (d1 :: rest) ++
            'E' :: expChars (e + ((d0 :: d1 :: rest : List Nat).length : Int) - 1))) = _
        unfold parseNumericChars
        rw [splitOnFirst_cons_of_neg _ _ _ (by simp [hg1, hg2]),
          splitOnFirst_cons_of_neg _ _ _ (by decide),
          splitOnFirst_of_append _ _ _ 'E' (noExpCh_digitsToChars _ hrlt) (by decide)]
        show parseWithExp sign
          (exponentOf (some (expChars (e + ((d0 :: d1 :: rest : List Nat).length : Int) - 1))))
          (digitChar d0 :: '.' :: digitsToChars (d1 :: rest)) = _
        rw [show exponentOf (some (expChars (e + ((d0 :: d1 :: rest : List Nat).length : Int) - 1))) =
            parseSignedNat (expChars (e + ((d0 :: d1 :: rest : List Nat).length : Int) - 1)) from rfl,
          parseSignedNat_expChars]
        show parseMantissa sign _ (digitChar d0 :: '.' :: digitsToChars (d1 :: rest)) = _
        unfold parseMantissa
        rw [splitOnFirst_cons_of_neg _ _ _ (by simp [hg3]),
          splitOnFirst_cons_of_pos _ _ _ (by decide)]
        show parseMantissaParts sign _ [digitChar d0] (digitsToChars (d1 :: rest)) = _
        unfold parseMantissaParts
        rw [if_pos (by
          rw [allDigit_digitsToChars _ hrlt]
          simp [isDigitCh_digitChar d0 (hlt d0 (by simp))])]
        have hco : charsToDigits ([digitChar d0] ++ digitsToChars (d1 :: rest)) =
            d0 :: d1 :: rest := by
          unfold charsToDigits
          have h2 : List.map digitVal (digitsToChars (d1 :: rest)) = d1 :: rest :=
            charsToDigits_digitsToChars _ hrlt
          rw [List.map_append, h2,
            show List.map digitVal [digitChar d0] = [digitVal (digitChar d0)] from rfl,
            digitVal_digitChar d0 (hlt d0 (by simp))]
          rfl
        rw [hco, normCoeff_of_WF _ ⟨hlt, hne, hhead⟩]
        have hexp : (e + ((d0 :: d1 :: rest : List Nat).length : Int) - 1) -
            ((digitsToChars (d1 :: rest)).length : Int) = e := by
          unfold digitsToChars
          rw [List.length_map]
          simp only [List.length_cons]
          push_cast
          ring
        rw [hexp]

theorem toLower_digitsToChars (ds : List Nat) (h : ∀ d ∈ ds, d < 10) :
    List.map Char.toLower (digitsToChars ds) = digitsToChars ds := by
  unfold digitsToChars
  rw [List.map_map]
  exact List.map_congr_left (fun a ha => toLower_digitChar a (h a ha))

theorem decBodyChars_head (ds : List Nat) (e : Int) (h : digitsWF ds) :
    ∃ k rest, k < 10 ∧ decBodyChars ds e = digitChar k :: rest := by
  obtain ⟨hlt, hne, -⟩ := h
  unfold decBodyChars
  by_cases h1 : e ≤ 0 ∧ -6 ≤ e + ds.length - 1
  · rw [if_pos h1]
    by_cases h2 : e = 0
    · rw [if_pos h2]
      cases ds with
      | nil => exact absurd rfl hne
      | cons d0 t => exact ⟨d0, digitsToChars t, hlt d0 (by simp), rfl⟩
    · rw [if_neg h2]
      by_cases h3 : ds.length ≤ (-e).toNat
      · rw [if_pos h3]
        exact ⟨0, _, by omega, rfl⟩
      · rw [if_neg h3]
        cases ds with
        | nil => exact absurd rfl hne
        | cons d0 t =>
          cases ht : (d0 :: t).length - (-e).toNat with
          | zero => omega
          | succ m =>
            refine ⟨d0, digitsToChars (List.take m t) ++
              '.' :: digitsToChars (List.drop ((d0 :: t).length - (-e).toNat) (d0 :: t)), hlt d0 (by simp), ?_⟩
            rw [ht]
            rfl
  · rw [if_neg h1]
    cases ds with
    | nil => exact absurd rfl hne
    | cons d0 t =>
      cases t with
      | nil => exact ⟨d0, _, hlt d0 (by simp), rfl⟩
      | cons d1 rest => exact ⟨d0, _, hlt d0 (by simp), rfl⟩

theorem decParseUnsigned_decBody (sign : Bool) (ds : List Nat) (e : Int) (h : digitsWF ds) :
    decParseUnsigned sign (decBodyChars ds e) = parseNumericChars sign (decBodyChars ds e) := by
  obtain ⟨k, rest, hk, heq⟩ := decBodyChars_head ds e h
  obtain ⟨-, -, hmem, -⟩ := digitChar_facts k hk
  have hi : digitChar k ≠ 'i' := fun he => hmem (by rw [he]; decide)
  have hs : digitChar k ≠ 's' := fun he => hmem (by rw [he]; decide)
  have hn : digitChar k ≠ 'n' := fun he => hmem (by rw [he]; decide)
  rw [heq]
  unfold decParseUnsigned
  rw [List.map_cons, toLower_digitChar k hk]
  rw [if_neg (by
    intro hcon
    rcases hcon with h1 | h1 <;> exact hi ((List.cons.injEq _ _ _ _).mp h1).1)]
  rw [if_neg (by
    intro hcon
    have h4 : (digitChar k :: List.map Char.toLower rest).take 4 =
        digitChar k :: (List.map Char.toLower rest).take 3 := rfl
    rw [h4] at hcon
    exact hs ((List.cons.injEq _ _ _ _).mp hcon.1).1)]
  rw [if_neg (by
    intro hcon
    have h3 : (digitChar k :: List.map Char.toLower rest).take 3 =
        digitChar k :: (List.map Char.toLower rest).take 2 := rfl
    rw [h3] at hcon
    exact hn ((List.cons.injEq _ _ _ _).mp hcon.1).1)]

theorem decParseUnsigned_nanChars (sign : Bool) (diag : List Nat)
    (hlt : ∀ d ∈ diag, d < 10) (hhd : diag.headD 1 ≠ 0) :
    decParseUnsigned sign ('N' :: 'a' :: 'N' :: digitsToChars diag) =
      some (.nan sign diag) := by
  have hlow : List.map Char.toLower ('N' :: 'a' :: 'N' :: digitsToChars diag) =
      'n' :: 'a' :: 'n' :: digitsToChars diag := by
    rw [List.map_cons, List.map_cons, List.map_cons, toLower_digitsToChars diag hlt]
    rfl
  unfold decParseUnsigned
  rw [hlow]
  rw [if_neg (by intro hcon; rcases hcon with h1 | h1 <;> simp at h1)]
  rw [if_neg (by
    intro hcon
    have h4 : ('n' :: 'a' :: 'n' :: digitsToChars diag).take 4 =
        'n' :: 'a' :: 'n' :: (digitsToChars diag).take 1 := rfl
    rw [h4] at hcon
    obtain ⟨hx, -⟩ := hcon
    simp at hx)]
  rw [if_pos ⟨rfl, by
    rw [show ('n' :: 'a' :: 'n' :: digitsToChars diag).drop 3 = digitsToChars diag from rfl]
    exact allDigit_digitsToChars diag hlt⟩]
  rw [show ('n' :: 'a' :: 'n' :: digitsToChars diag).drop 3 = digitsToChars diag from rfl,
    charsToDigits_digitsToChars diag hlt, normDiag_of_WF diag hhd]

theorem decParseUnsigned_snanChars (sign : Bool) (diag : List Nat)
    (hlt : ∀ d ∈ diag, d < 10) (hhd : diag.headD 1 ≠ 0) :
    decParseUnsigned sign ('s' :: 'N' :: 'a' :: 'N' :: digitsToChars diag) =
      some (.snan sign diag) := by
  have hlow : List.map Char.toLower ('s' :: 'N' :: 'a' :: 'N' :: digitsToChars diag) =
      's' :: 'n' :: 'a' :: 'n' :: digitsToChars diag := by
    rw [List.map_cons, List.map_cons, List.map_cons, List.map_cons,
      toLower_digitsToChars diag hlt]
    rfl
  unfold decParseUnsigned
  rw [hlow]
  rw [if_neg (by intro hcon; rcases hcon with h1 | h1 <;> simp at h1)]
  rw [if_pos ⟨rfl, by
    rw [show ('s' :: 'n' :: 'a' :: 'n' :: digitsToChars diag).drop 4 = digitsToChars diag from rfl]
    exact allDigit_digitsToChars diag hlt⟩]
  rw [show ('s' :: 'n' :: 'a' :: 'n' :: digitsToChars diag).drop 4 = digitsToChars diag from rfl,
    charsToDigits_digitsToChars diag hlt, normDiag_of_WF diag hhd]

/-- A printed decimal parses back to exactly the value it printed: the key
round-trip law behind serialize-then-deserialize. -/
theorem decParse_decStr (d : PyDec) (h : d.WF) : decParse (decStr d) = some d := by
  unfold decParse decStr
  rw [toList_mk]
  rw [dropBothWhile_eq_self _ _ (fun c hc => (plain_decStrChars d h c hc).1)]
  rw [deUnderscore_eq_self _ (fun c hc => (plain_decStrChars d h c hc).2)]
  cases d with
  | finite sign ds e =>
    have hWF : digitsWF ds := h
    obtain ⟨k, rest, hk, heq⟩ := decBodyChars_head ds e hWF
    obtain ⟨-, -, hmem, -⟩ := digitChar_facts k hk
    have hminus : digitChar k ≠ '-' := fun he => hmem (by rw [he]; decide)
    have hplus : digitChar k ≠ '+' := fun he => hmem (by rw [he]; decide)
    cases sign with
    | true =>
      show decParseSigned ('-' :: decBodyChars ds e) = _
      rw [decParseSigned, if_pos rfl]
      rw [decParseUnsigned_decBody true ds e hWF, parseNumeric_decBody true ds e hWF]
    | false =>
      show decParseSigned (decBodyChars ds e) = _
      rw [heq, decParseSigned, if_neg hminus, if_neg hplus, ← heq]
      rw [decParseUnsigned_decBody false ds e hWF, parseNumeric_decBody false ds e hWF]
  | inf sign =>
    cases sign with
    | true => decide
    | false => decide
  | nan sign diag =>
    obtain ⟨hlt, hhd⟩ := h
    cases sign with
    | true =>
      show decParseSigned ('-' :: 'N' :: 'a' :: 'N' :: digitsToChars diag) = _
      rw [decParseSigned, if_pos rfl, decParseUnsigned_nanChars true diag hlt hhd]
    | false =>
      show decParseSigned ('N' :: 'a' :: 'N' :: digitsToChars diag) = _
      rw [decParseSigned, if_neg (by decide), if_neg (by decide),
        decParseUnsigned_nanChars false diag hlt hhd]
  | snan sign diag =>
    obtain ⟨hlt, hhd⟩ := h
    cases sign with
    | true =>
      show decParseSigned ('-' :: 's' :: 'N' :: 'a' :: 'N' :: digitsToChars diag) = _
      rw [decParseSigned, if_pos rfl, decParseUnsigned_snanChars true diag hlt hhd]
    | false =>
      show decParseSigned ('s' :: 'N' :: 'a' :: 'N' :: digitsToChars diag) = _
      rw [decParseSigned, if_neg (by decide), if_neg (by decide),
        decParseUnsigned_snanChars false diag hlt hhd]

/-! ## Laws of decimal numeric equality -/

theorem pow10_eq (k : Nat) : pow10 k = (10 : Int) ^ k := by
  induction k with
  | zero => rfl
  | succ k ih => rw [pow10, ih, pow_succ]; ring

theorem decNumEq_self (d : PyDec) (h : d.isNaN = false) : decNumEq d d = true := by
  cases d with
  | finite s ds e => simp [decNumEq]
  | inf s => simp [decNumEq]
  | nan s diag => simp [PyDec.isNaN] at h
  | snan s diag => simp [PyDec.isNaN] at h

/-- The exact rational value of a finite decimal. -/
noncomputable def ratValF (sign : Bool) (ds : List Nat) (e : Int) : Rat :=
  ((decSigned sign ds : Int) : Rat) * (10 : Rat) ^ e

theorem decNumEq_finite_iff (s1 s2 : Bool) (d1 d2 : List Nat) (e1 e2 : Int) :
    decNumEq (.finite s1 d1 e1) (.finite s2 d2 e2) = true ↔
      ratValF s1 d1 e1 = ratValF s2 d2 e2 := by
  have hten : (10 : Rat) ≠ 0 := by norm_num
  have key : ∀ (s : Bool) (ds : List Nat) (e : Int), 0 ≤ e - min e1 e2 →
      ((decSigned s ds * pow10 (e - min e1 e2).toNat : Int) : Rat) =
        ratValF s ds e * (10 : Rat) ^ (-(min e1 e2)) := by
    intro s ds e he
    rw [pow10_eq]
    push_cast
    rw [show ((10 : Rat) ^ ((e - min e1 e2).toNat)) =
        (10 : Rat) ^ (((e - min e1 e2).toNat : Int)) from (zpow_natCast _ _).symm,
      Int.toNat_of_nonneg he]
    unfold ratValF
    rw [mul_assoc, ← zpow_add₀ hten, sub_eq_add_neg]
  constructor
  · intro hd
    have hInt : decSigned s1 d1 * pow10 (e1 - min e1 e2).toNat =
        decSigned s2 d2 * pow10 (e2 - min e1 e2).toNat := of_decide_eq_true hd
    have hQ := congrArg (fun z : Int => (z : Rat)) hInt
    simp only at hQ
    rw [key s1 d1 e1 (by omega), key s2 d2 e2 (by omega)] at hQ
    exact mul_right_cancel₀ (zpow_ne_zero _ hten) hQ
  · intro hq
    apply decide_eq_true
    have hcast : ((decSigned s1 d1 * pow10 (e1 - min e1 e2).toNat : Int) : Rat) =
        ((decSigned s2 d2 * pow10 (e2 - min e1 e2).toNat : Int) : Rat) := by
      rw [key s1 d1 e1 (by omega), key s2 d2 e2 (by omega), hq]
    exact_mod_cast hcast

/-- Numerically equal decimals match exactly the same decimals: the law that
makes the three `find_by_price` input shapes interchangeable. -/
theorem decNumEq_congr (a d1 d2 : PyDec) (h : decNumEq d1 d2 = true) :
    decNumEq a d1 = decNumEq a d2 := by
  cases d1 with
  | finite s1 x1 e1 =>
    cases d2 with
    | finite s2 x2 e2 =>
      have h12 : ratValF s1 x1 e1 = ratValF s2 x2 e2 :=
        (decNumEq_finite_iff s1 s2 x1 x2 e1 e2).mp h
      cases a with
      | finite sa xa ea =>
        by_cases ha : ratValF sa xa ea = ratValF s1 x1 e1
        · have t1 : decNumEq (.finite sa xa ea) (.finite s1 x1 e1) = true :=
            (decNumEq_finite_iff sa s1 xa x1 ea e1).mpr ha
          have t2 : decNumEq (.finite sa xa ea) (.finite s2 x2 e2) = true :=
            (decNumEq_finite_iff sa s2 xa x2 ea e2).mpr (ha.trans h12)
          rw [t1, t2]
        · have t1 : decNumEq (.finite sa xa ea) (.finite s1 x1 e1) = false := by
            rw [Bool.eq_false_iff]
            intro hcon
            exact ha ((decNumEq_finite_iff sa s1 xa x1 ea e1).mp hcon)
          have t2 : decNumEq (.finite sa xa ea) (.finite s2 x2 e2) = false := by
            rw [Bool.eq_false_iff]
            intro hcon
            exact ha (((decNumEq_finite_iff sa s2 xa x2 ea e2).mp hcon).trans h12.symm)
          rw [t1, t2]
      | inf sa => rfl
      | nan sa da => rfl
      | snan sa da => rfl
    | inf s2 => simp [decNumEq] at h
    | nan s2 d2 => simp [decNumEq] at h
    | snan s2 d2 => simp [decNumEq] at h
  | inf s1 =>
    cases d2 with
    | inf s2 =>
      have hs : s1 = s2 := by simpa [decNumEq] using h
      subst hs
      rfl
    | finite s2 x2 e2 => simp [decNumEq] at h
    | nan s2 d2 => simp [decNumEq] at h
    | snan s2 d2 => simp [decNumEq] at h
  | nan s1 dg => simp [decNumEq] at h
  | snan s1 dg => simp [decNumEq] at h

/-! ## Supporting facts about the operations -/

theorem pyStrip_decStr (d : PyDec) (h : d.WF) : pyStrip (decStr d) = decStr d := by
  unfold pyStrip decStr
  rw [toList_mk,
    dropBothWhile_eq_self _ _ (fun c hc => (plain_decStrChars d h c hc).1)]

theorem priceOfRaw_decStr (d : PyDec) (h : d.WF) :
    priceOfRaw (.pyStr (decStr d)) = .ok d := by
  unfold priceOfRaw
  rw [if_neg (by simp [isNumericForPrice])]
  show (match decParse (pyStrip (decStr d)) with
    | some d => Except.ok d
    | none => Except.error PyExc.invalidOperation) = Except.ok d
  rw [pyStrip_decStr d h, decParse_decStr d h]

theorem categoryOfName_name (c : Category) : categoryOfName c.name = some c := by
  cases c <;> rfl

theorem getattrCategory_name (c : Category) :
    getattrCategory (.pyStr c.name) = .ok (.pyCat c) := by
  cases c <;> rfl

theorem priceOfRaw_error_handled (v : PyVal) (e : PyExc) (h : priceOfRaw v = .error e) :
    ∃ k, handleExc e = .dvError k := by
  unfold priceOfRaw at h
  by_cases hnum : isNumericForPrice v = true
  · rw [if_pos hnum] at h
    cases hp : decParse (pyStrOf v) with
    | some d => rw [hp] at h; simp at h
    | none =>
      rw [hp] at h
      have : PyExc.invalidOperation = e := by
        have := h
        simp at this
        exact this
      subst this
      exact ⟨.invalidPrice, rfl⟩
  · rw [if_neg hnum] at h
    cases v with
    | pyStr s =>
      have h2 : (match decParse (pyStrip s) with
        | some d => Except.ok d
        | none => Except.error PyExc.invalidOperation) = Except.error e := h
      cases hp : decParse (pyStrip s) with
      | some d => rw [hp] at h2; simp at h2
      | none =>
        rw [hp] at h2
        simp at h2
        subst h2
        exact ⟨.invalidPrice, rfl⟩
    | pyNone => simp at h; subst h; exact ⟨_, rfl⟩
    | pyBool b => simp [isNumericForPrice] at hnum
    | pyInt n => simp [isNumericForPrice] at hnum
    | pyFloat r => simp [isNumericForPrice] at hnum
    | pyDec d => simp [isNumericForPrice] at hnum
    | pyCat c => simp at h; subst h; exact ⟨_, rfl⟩
    | pyCatAttr s => simp at h; subst h; exact ⟨_, rfl⟩
    | pyOther t => simp at h; subst h; exact ⟨_, rfl⟩

theorem getattrCategory_error_handled (v : PyVal) (e : PyExc)
    (h : getattrCategory v = .error e) : ∃ k, handleExc e = .dvError k := by
  cases v with
  | pyStr s =>
    have h2 : (match categoryOfName s with
      | some c => Except.ok (PyVal.pyCat c)
      | none =>
        if categoryClassAttrs.contains s then Except.ok (PyVal.pyCatAttr s)
        else Except.error (PyExc.attributeError s)) = Except.error e := h
    cases hc : categoryOfName s with
    | some c => rw [hc] at h2; simp at h2
    | none =>
      rw [hc] at h2
      by_cases hattr : categoryClassAttrs.contains s
      · rw [if_pos hattr] at h2
        simp at h2
      · rw [if_neg hattr] at h2
        simp at h2
        subst h2
        exact ⟨.invalidAttribute s, rfl⟩
  | pyNone => simp [getattrCategory] at h; subst h; exact ⟨_, rfl⟩
  | pyBool b => simp [getattrCategory] at h; subst h; exact ⟨_, rfl⟩
  | pyInt n => simp [getattrCategory] at h; subst h; exact ⟨_, rfl⟩
  | pyFloat r => simp [getattrCategory] at h; subst h; exact ⟨_, rfl⟩
  | pyDec d => simp [getattrCategory] at h; subst h; exact ⟨_, rfl⟩
  | pyCat c => simp [getattrCategory] at h; subst h; exact ⟨_, rfl⟩
  | pyCatAttr s => simp [getattrCategory] at h; subst h; exact ⟨_, rfl⟩
  | pyOther t => simp [getattrCategory] at h; subst h; exact ⟨_, rfl⟩

theorem storeFind_commitUpdate (s : Store) (p : Product)
    (h : ∃ q, storeFind s p.id = some q) :
    storeFind (commitUpdate s p) p.id = some p := by
  obtain ⟨q, hq⟩ := h
  induction s with
  | nil => simp [storeFind] at hq
  | cons r t ih =>
    unfold commitUpdate storeFind at *
    by_cases hr : r.id = p.id
    · simp [List.find?, hr]
    · rw [List.map_cons, if_neg hr]
      rw [List.find?] at hq ⊢
      have hne : (r.id == p.id) = false := by simp [hr]
      rw [hne] at hq ⊢
      exact ih hq

/-! ## The claims -/

/-- C8: for every in-memory record whose `category` is unset (`None`),
`serialize` succeeds, and the `"category"` entry of the produced mapping is
the name `"UNKNOWN"`. -/
theorem claim_C8_serialize_unset_category (p : Product) (h : p.category = .pyNone) :
    Product.serialize p =
      .ok [("id", p.id), ("name", p.name), ("description", p.description),
           ("price", .pyStr (pyStrOf p.price)), ("available", p.available),
           ("category", .pyStr "UNKNOWN")] := by
  unfold Product.serialize catNameOf
  rw [h]
  rfl

theorem claim_C8_serialize_unset_category_witness :
    Product.serialize
      { name := .pyStr "widget", description := .pyStr "desc",
        price := .pyDec (.finite false [9, 9, 9] (-2)), available := .pyBool true } =
      .ok [("id", .pyNone), ("name", .pyStr "widget"), ("description", .pyStr "desc"),
           ("price", .pyStr "9.99"), ("available", .pyBool true),
           ("category", .pyStr "UNKNOWN")] := by
  rw [claim_C8_serialize_unset_category _ rfl]
  rfl

/-- C5: `update` on a record whose id is unset (`None` or `0`) fails with
the empty-id validation error leaving the store unchanged; on a record with
a nonzero integer id it succeeds, and when a row with that id is in the
store, the row afterwards carries all the record's current field values. -/
theorem claim_C5_update (p : Product) (s : Store) :
    ((p.id = .pyNone ∨ p.id = .pyInt 0) →
      Product.update p s = (s, .error (.dvError .emptyId))) ∧
    (∀ n : Int, p.id = .pyInt n → n ≠ 0 →
      (Product.update p s).2 = .ok () ∧
        ((∃ q, storeFind s p.id = some q) →
          storeFind (Product.update p s).1 p.id = some p)) := by
  constructor
  · intro h
    rcases h with h | h <;> simp [Product.update, pyTruthy, h]
  · intro n hn hne
    have ht : pyTruthy p.id = true := by rw [hn]; simp [pyTruthy, hne]
    constructor
    · rw [Product.update, if_pos ht]
    · intro hex
      rw [Product.update, if_pos ht]
      exact storeFind_commitUpdate s p hex

/-- A record with no id, for exercising the empty-id branch of `update`. -/
def prodNoId : Product := { name := .pyStr "x", description := .pyStr "y" }

/-- A persisted record with id 7 and fresh field values. -/
def prodId7 : Product :=
  { id := .pyInt 7, name := .pyStr "tee", description := .pyStr "updated",
    price := .pyDec (.finite false [2, 1] 0), available := .pyBool false,
    category := .pyCat .CLOTHS }

/-- The stored row that `prodId7` overwrites. -/
def prodId7old : Product :=
  { id := .pyInt 7, name := .pyStr "tee", description := .pyStr "shirt",
    price := .pyDec (.finite false [1, 9, 9, 9] (-2)), available := .pyBool true,
    category := .pyCat .CLOTHS }

theorem claim_C5_update_witness :
    Product.update prodNoId [] = ([], .error (.dvError .emptyId)) ∧
    (Product.update prodId7 [prodId7old]).2 = .ok () ∧
    storeFind (Product.update prodId7 [prodId7old]).1 prodId7.id = some prodId7 :=
  ⟨(claim_C5_update prodNoId []).1 (Or.inl rfl),
   ((claim_C5_update prodId7 [prodId7old]).2 7 rfl (by decide)).1,
   ((claim_C5_update prodId7 [prodId7old]).2 7 rfl (by decide)).2 ⟨prodId7old, by decide⟩⟩

/-- C9: `deserialize` is total over the validation-error family: on every
mapping it either returns a record or fails with a `DataValidationError`;
every exception its body can raise is caught and reclassified, so no other
exception kind ever escapes. -/
theorem claim_C9_deserialize_total (p : Product) (data : PyDict) :
    (∃ r, (Product.deserialize p data).2 = .ok r) ∨
      (∃ k, (Product.deserialize p data).2 = .error (.dvError k)) := by
  cases hn : dictGet data "name" with
  | none =>
    right
    exact ⟨.missingField "name", by simp [Product.deserialize, deserializeSteps, hn, handleExc]⟩
  | some vn =>
    cases hd : dictGet data "description" with
    | none =>
      right
      exact ⟨.missingField "description",
        by simp [Product.deserialize, deserializeSteps, hn, hd, handleExc]⟩
    | some vd =>
      cases hp : dictGet data "price" with
      | none =>
        right
        exact ⟨.missingField "price",
          by simp [Product.deserialize, deserializeSteps, hn, hd, hp, handleExc]⟩
      | some vp =>
        cases hpr : priceOfRaw vp with
        | error e =>
          obtain ⟨k, hk⟩ := priceOfRaw_error_handled vp e hpr
          right
          exact ⟨k, by simp [Product.deserialize, deserializeSteps, hn, hd, hp, hpr, hk]⟩
        | ok dp =>
          cases ha : dictGet data "available" with
          | none =>
            right
            exact ⟨.missingField "available",
              by simp [Product.deserialize, deserializeSteps, hn, hd, hp, hpr, ha, handleExc]⟩
          | some va =>
            by_cases hb : isPyBool va
            · cases hc : dictGet data "category" with
              | none =>
                right
                exact ⟨.missingField "category", by
                  simp [Product.deserialize, deserializeSteps, hn, hd, hp, hpr, ha, hb, hc,
                    handleExc]⟩
              | some vc =>
                cases hg : getattrCategory vc with
                | error e =>
                  obtain ⟨k, hk⟩ := getattrCategory_error_handled vc e hg
                  right
                  exact ⟨k, by
                    simp [Product.deserialize, deserializeSteps, hn, hd, hp, hpr, ha, hb, hc,
                      hg, hk]⟩
                | ok cv =>
                  left
                  refine ⟨{ p with
                              name := vn, description := vd, price := .pyDec dp,
                              available := va, category := cv }, ?_⟩
                  simp [Product.deserialize, deserializeSteps, hn, hd, hp, hpr, ha, hb, hc, hg]
            · right
              exact ⟨.invalidTypeAvailable (pyTypeName va), by
                simp [Product.deserialize, deserializeSteps, hn, hd, hp, hpr, ha, hb, handleExc]⟩

/-- C4: the error `deserialize` surfaces is exactly the (reclassified) error
of the first failing field in source order (name, description, price,
available, category); `Except` carries a single error, so exactly one is
reported. -/
theorem claim_C4_error_precedence (p : Product) (data : PyDict) (e : PyExc)
    (h : firstFieldError data = some e) :
    (Product.deserialize p data).2 = .error (handleExc e) := by
  unfold firstFieldError fieldErrName fieldErrDescription fieldErrPrice fieldErrAvailable
    fieldErrCategory at h
  cases hn : dictGet data "name" with
  | none =>
    simp only [hn, Option.orElse] at h
    obtain rfl := Option.some.inj h
    simp [Product.deserialize, deserializeSteps, hn]
  | some vn =>
    simp only [hn, Option.orElse] at h
    cases hd : dictGet data "description" with
    | none =>
      simp only [hd, Option.orElse] at h
      obtain rfl := Option.some.inj h
      simp [Product.deserialize, deserializeSteps, hn, hd]
    | some vd =>
      simp only [hd, Option.orElse] at h
      cases hp : dictGet data "price" with
      | none =>
        simp only [hp, Option.orElse] at h
        obtain rfl := Option.some.inj h
        simp [Product.deserialize, deserializeSteps, hn, hd, hp]
      | some vp =>
        simp only [hp, Option.orElse] at h
        cases hpr : priceOfRaw vp with
        | error e2 =>
          simp only [hpr, Option.orElse] at h
          obtain rfl := Option.some.inj h
          simp [Product.deserialize, deserializeSteps, hn, hd, hp, hpr]
        | ok dp =>
          simp only [hpr, Option.orElse] at h
          cases ha : dictGet data "available" with
          | none =>
            simp only [ha, Option.orElse] at h
            obtain rfl := Option.some.inj h
            simp [Product.deserialize, deserializeSteps, hn, hd, hp, hpr, ha]
          | some va =>
            simp only [ha, Option.orElse] at h
            by_cases hb : isPyBool va
            · simp only [hb, if_true, Option.orElse] at h
              cases hc : dictGet data "category" with
              | none =>
                simp only [hc, Option.orElse] at h
                obtain rfl := Option.some.inj h
                simp [Product.deserialize, deserializeSteps, hn, hd, hp, hpr, ha, hb, hc]
              | some vc =>
                simp only [hc, Option.orElse] at h
                cases hg : getattrCategory vc with
                | error e2 =>
                  simp only [hg] at h
                  obtain rfl := Option.some.inj h
                  simp [Product.deserialize, deserializeSteps, hn, hd, hp, hpr, ha, hb, hc, hg]
                | ok cv =>
                  simp only [hg] at h
                  exact absurd h (by simp)
            · rw [if_neg hb] at h
              simp only [Option.orElse] at h
              obtain rfl := Option.some.inj h
              simp [Product.deserialize, deserializeSteps, hn, hd, hp, hpr, ha, hb]

/-- A payload whose `name` key is missing and whose `available` value is a
string: two failing fields at once. -/
def dataTwoBad : PyDict :=
  [("description", .pyStr "tool"), ("price", .pyStr "12.50"),
   ("available", .pyStr "yes"), ("category", .pyStr "TOOLS")]

theorem claim_C4_error_precedence_witness :
    (Product.deserialize {} dataTwoBad).2 =
      .error (.dvError (.missingField "name")) :=
  claim_C4_error_precedence {} dataTwoBad (.keyError "name") (by decide)

theorem deserialize_price_state (p : Product) (data : PyDict) (vn vd vp : PyVal) (dp : PyDec)
    (hn : dictGet data "name" = some vn) (hd : dictGet data "description" = some vd)
    (hp : dictGet data "price" = some vp) (hpr : priceOfRaw vp = .ok dp) :
    (Product.deserialize p data).1.price = .pyDec dp := by
  cases ha : dictGet data "available" with
  | none => simp [Product.deserialize, deserializeSteps, hn, hd, hp, hpr, ha]
  | some va =>
    by_cases hb : isPyBool va
    · cases hc : dictGet data "category" with
      | none => simp [Product.deserialize, deserializeSteps, hn, hd, hp, hpr, ha, hb, hc]
      | some vc =>
        cases hg : getattrCategory vc with
        | error e2 =>
          simp [Product.deserialize, deserializeSteps, hn, hd, hp, hpr, ha, hb, hc, hg]
        | ok cv =>
          simp [Product.deserialize, deserializeSteps, hn, hd, hp, hpr, ha, hb, hc, hg]
    · simp [Product.deserialize, deserializeSteps, hn, hd, hp, hpr, ha, hb]

/-- C7: once the earlier fields pass, the value at `"available"` must be
exactly a boolean: a boolean is copied into the record (whatever happens to
the later category field), and any other type fails with the
invalid-type-for-available error. -/
theorem claim_C7_available_bool (p : Product) (data : PyDict) (vn vd vp : PyVal) (dp : PyDec)
    (va : PyVal) (hn : dictGet data "name" = some vn)
    (hd : dictGet data "description" = some vd) (hp : dictGet data "price" = some vp)
    (hpr : priceOfRaw vp = .ok dp) (ha : dictGet data "available" = some va) :
    (isPyBool va = true → (Product.deserialize p data).1.available = va) ∧
    (isPyBool va = false →
      (Product.deserialize p data).2 =
        .error (.dvError (.invalidTypeAvailable (pyTypeName va)))) := by
  constructor
  · intro hb
    cases hc : dictGet data "category" with
    | none => simp [Product.deserialize, deserializeSteps, hn, hd, hp, hpr, ha, hb, hc]
    | some vc =>
      cases hg : getattrCategory vc with
      | error e2 =>
        simp [Product.deserialize, deserializeSteps, hn, hd, hp, hpr, ha, hb, hc, hg]
      | ok cv =>
        simp [Product.deserialize, deserializeSteps, hn, hd, hp, hpr, ha, hb, hc, hg]
  · intro hb
    simp [Product.deserialize, deserializeSteps, hn, hd, hp, hpr, ha, hb, handleExc]

/-- A payload whose `available` value is the truthy string `"yes"`. -/
def dataAvailYes : PyDict :=
  [("name", .pyStr "hammer"), ("description", .pyStr "tool"), ("price", .pyStr "12.50"),
   ("available", .pyStr "yes"), ("category", .pyStr "TOOLS")]

/-- The same payload with a genuine boolean `available`. -/
def dataAvailTrue : PyDict :=
  [("name", .pyStr "hammer"), ("description", .pyStr "tool"), ("price", .pyStr "12.50"),
   ("available", .pyBool true), ("category", .pyStr "TOOLS")]

theorem claim_C7_available_bool_witness :
    (Product.deserialize {} dataAvailYes).2 =
      .error (.dvError (.invalidTypeAvailable "str")) ∧
    (Product.deserialize {} dataAvailTrue).1.available = .pyBool true :=
  ⟨(claim_C7_available_bool {} dataAvailYes (.pyStr "hammer") (.pyStr "tool")
      (.pyStr "12.50") (.finite false [1, 2, 5, 0] (-2)) (.pyStr "yes")
      rfl rfl rfl (by decide) rfl).2 rfl,
   (claim_C7_available_bool {} dataAvailTrue (.pyStr "hammer") (.pyStr "tool")
      (.pyStr "12.50") (.finite false [1, 2, 5, 0] (-2)) (.pyBool true)
      rfl rfl rfl (by decide) rfl).1 rfl⟩

/-- C10: `deserialize` is not atomic on failure.  Whichever field fails,
every field before it in source order has already been assigned its new
value on the passed-in record and stays assigned, while the failing field
and the ones after it keep their previous values. -/
theorem claim_C10_partial_mutation (p : Product) (data : PyDict) :
    (dictGet data "name" = none → (Product.deserialize p data).1 = p) ∧
    (∀ vn, dictGet data "name" = some vn → dictGet data "description" = none →
      (Product.deserialize p data).1 = { p with name := vn }) ∧
    (∀ vn vd, dictGet data "name" = some vn → dictGet data "description" = some vd →
      dictGet data "price" = none →
      (Product.deserialize p data).1 = { p with name := vn, description := vd }) ∧
    (∀ vn vd vp e, dictGet data "name" = some vn → dictGet data "description" = some vd →
      dictGet data "price" = some vp → priceOfRaw vp = .error e →
      (Product.deserialize p data).1 = { p with name := vn, description := vd }) ∧
    (∀ vn vd vp dp, dictGet data "name" = some vn → dictGet data "description" = some vd →
      dictGet data "price" = some vp → priceOfRaw vp = .ok dp →
      dictGet data "available" = none →
      (Product.deserialize p data).1 =
        { p with name := vn, description := vd, price := .pyDec dp }) ∧
    (∀ vn vd vp dp va, dictGet data "name" = some vn → dictGet data "description" = some vd →
      dictGet data "price" = some vp → priceOfRaw vp = .ok dp →
      dictGet data "available" = some va → isPyBool va = false →
      (Product.deserialize p data).1 =
        { p with name := vn, description := vd, price := .pyDec dp }) ∧
    (∀ vn vd vp dp va, dictGet data "name" = some vn → dictGet data "description" = some vd →
      dictGet data "price" = some vp → priceOfRaw vp = .ok dp →
      dictGet data "available" = some va → isPyBool va = true →
      dictGet data "category" = none →
      (Product.deserialize p data).1 =
        { p with name := vn, description := vd, price := .pyDec dp, available := va }) ∧
    (∀ vn vd vp dp va vc e, dictGet data "name" = some vn →
      dictGet data "description" = some vd →
      dictGet data "price" = some vp → priceOfRaw vp = .ok dp →
      dictGet data "available" = some va → isPyBool va = true →
      dictGet data "category" = some vc → getattrCategory vc = .error e →
      (Product.deserialize p data).1 =
        { p with name := vn, description := vd, price := .pyDec dp, available := va }) := by
  refine ⟨?_, ?_, ?_, ?_, ?_, ?_, ?_, ?_⟩
  · intro hn
    simp [Product.deserialize, deserializeSteps, hn]
  · intro vn hn hd
    simp [Product.deserialize, deserializeSteps, hn, hd]
  · intro vn vd hn hd hp
    simp [Product.deserialize, deserializeSteps, hn, hd, hp]
  · intro vn vd vp e hn hd hp hpr
    simp [Product.deserialize, deserializeSteps, hn, hd, hp, hpr]
  · intro vn vd vp dp hn hd hp hpr ha
    simp [Product.deserialize, deserializeSteps, hn, hd, hp, hpr, ha]
  · intro vn vd vp dp va hn hd hp hpr ha hb
    simp [Product.deserialize, deserializeSteps, hn, hd, hp, hpr, ha, hb]
  · intro vn vd vp dp va hn hd hp hpr ha hb hc
    simp [Product.deserialize, deserializeSteps, hn, hd, hp, hpr, ha, hb, hc]
  · intro vn vd vp dp va vc e hn hd hp hpr ha hb hc hg
    simp [Product.deserialize, deserializeSteps, hn, hd, hp, hpr, ha, hb, hc, hg]

theorem claim_C10_partial_mutation_witness :
    (Product.deserialize {} dataAvailYes).1 =
      { name := .pyStr "hammer", description := .pyStr "tool",
        price := .pyDec (.finite false [1, 2, 5, 0] (-2)) } :=
  (claim_C10_partial_mutation {} dataAvailYes).2.2.2.2.2.1 (.pyStr "hammer")
    (.pyStr "tool") (.pyStr "12.50") (.finite false [1, 2, 5, 0] (-2)) (.pyStr "yes")
    rfl rfl rfl (by decide) rfl (by decide)

/-- A payload whose `price` is the boolean `True`: in Python `bool` is a
subclass of `int`, so it passes the numeric `isinstance` test and its
string form `"True"` then fails to parse as a decimal. -/
def dataPriceBool : PyDict :=
  [("name", .pyStr "hammer"), ("description", .pyStr "tool"), ("price", .pyBool true),
   ("available", .pyBool true), ("category", .pyStr "TOOLS")]

/-- C2 as stated is false: a boolean price is "a value of any other type"
(not an integer, float, decimal or string), yet `deserialize` fails with
the `InvalidPrice` kind ("Invalid price value"), not `InvalidType(price)`. -/
theorem claim_C2_counterexample :
    (Product.deserialize {} dataPriceBool).2 = .error (.dvError .invalidPrice) ∧
    (Product.deserialize {} dataPriceBool).2 ≠
      .error (.dvError (.invalidTypePrice "bool")) := by
  decide

/-- C2, amended: once name and description pass, the price value is handled
by its Python type — a number (including a boolean, which is an `int`
subtype) is converted through its string form, failing with `InvalidPrice`
when that form is not a decimal literal (so `True`/`False` always fail with
`InvalidPrice`); a string is stripped and parsed, failing with
`InvalidPrice` on a bad literal; anything else fails with
`InvalidType(price)`. -/
theorem claim_C2_price_amended (p : Product) (data : PyDict) (vn vd vp : PyVal)
    (hn : dictGet data "name" = some vn) (hd : dictGet data "description" = some vd)
    (hp : dictGet data "price" = some vp) :
    (∀ dp, isNumericForPrice vp = true → decParse (pyStrOf vp) = some dp →
      (Product.deserialize p data).1.price = .pyDec dp) ∧
    (isNumericForPrice vp = true → decParse (pyStrOf vp) = none →
      (Product.deserialize p data).2 = .error (.dvError .invalidPrice)) ∧
    (isPyBool vp = true →
      (Product.deserialize p data).2 = .error (.dvError .invalidPrice)) ∧
    (∀ s dp, vp = .pyStr s → decParse (pyStrip s) = some dp →
      (Product.deserialize p data).1.price = .pyDec dp) ∧
    (∀ s, vp = .pyStr s → decParse (pyStrip s) = none →
      (Product.deserialize p data).2 = .error (.dvError .invalidPrice)) ∧
    (isNumericForPrice vp = false → isPyStr vp = false →
      (Product.deserialize p data).2 =
        .error (.dvError (.invalidTypePrice (pyTypeName vp)))) := by
  refine ⟨?_, ?_, ?_, ?_, ?_, ?_⟩
  · intro dp hnum hpar
    have hpr : priceOfRaw vp = .ok dp := by
      unfold priceOfRaw
      rw [if_pos hnum, hpar]
    exact deserialize_price_state p data vn vd vp dp hn hd hp hpr
  · intro hnum hpar
    have hpr : priceOfRaw vp = .error .invalidOperation := by
      unfold priceOfRaw
      rw [if_pos hnum, hpar]
    simp [Product.deserialize, deserializeSteps, hn, hd, hp, hpr, handleExc]
  · intro hb
    cases vp with
    | pyBool b =>
      have hnone : decParse (pyStrOf (.pyBool b)) = none := by cases b <;> decide
      have hpr : priceOfRaw (.pyBool b) = .error .invalidOperation := by
        unfold priceOfRaw
        rw [if_pos (show isNumericForPrice (.pyBool b) = true from rfl), hnone]
      simp [Product.deserialize, deserializeSteps, hn, hd, hp, hpr, handleExc]
    | pyNone => simp [isPyBool] at hb
    | pyInt n => simp [isPyBool] at hb
    | pyFloat r => simp [isPyBool] at hb
    | pyStr s => simp [isPyBool] at hb
    | pyDec dd => simp [isPyBool] at hb
    | pyCat c => simp [isPyBool] at hb
    | pyCatAttr s => simp [isPyBool] at hb
    | pyOther t => simp [isPyBool] at hb
  · intro s dp heq hpar
    subst heq
    have hpr : priceOfRaw (.pyStr s) = .ok dp := by
      unfold priceOfRaw
      rw [if_neg (by simp [isNumericForPrice])]
      show (match decParse (pyStrip s) with
        | some d => Except.ok d
        | none => Except.error PyExc.invalidOperation) = Except.ok dp
      rw [hpar]
    exact deserialize_price_state p data vn vd (.pyStr s) dp hn hd hp hpr
  · intro s heq hpar
    subst heq
    have hpr : priceOfRaw (.pyStr s) = .error .invalidOperation := by
      unfold priceOfRaw
      rw [if_neg (by simp [isNumericForPrice])]
      show (match decParse (pyStrip s) with
        | some d => Except.ok d
        | none => Except.error PyExc.invalidOperation) = Except.error PyExc.invalidOperation
      rw [hpar]
    simp [Product.deserialize, deserializeSteps, hn, hd, hp, hpr, handleExc]
  · intro hnum hstr
    have hpr : priceOfRaw vp = .error (.dvError (.invalidTypePrice (pyTypeName vp))) := by
      unfold priceOfRaw
      rw [if_neg (by simp [hnum])]
      cases vp with
      | pyStr s => simp [isPyStr] at hstr
      | pyBool b => simp [isNumericForPrice] at hnum
      | pyInt n => simp [isNumericForPrice] at hnum
      | pyFloat r => simp [isNumericForPrice] at hnum
      | pyDec dd => simp [isNumericForPrice] at hnum
      | pyNone => rfl
      | pyCat c => rfl
      | pyCatAttr s => rfl
      | pyOther t => rfl
    simp [Product.deserialize, deserializeSteps, hn, hd, hp, hpr, handleExc]

theorem claim_C2_price_amended_witness :
    (Product.deserialize {} dataPriceBool).2 = .error (.dvError .invalidPrice) ∧
    (Product.deserialize {} dataAvailTrue).1.price =
      .pyDec (.finite false [1, 2, 5, 0] (-2)) :=
  ⟨(claim_C2_price_amended {} dataPriceBool (.pyStr "hammer") (.pyStr "tool")
      (.pyBool true) rfl rfl rfl).2.2.1 rfl,
   (claim_C2_price_amended {} dataAvailTrue (.pyStr "hammer") (.pyStr "tool")
      (.pyStr "12.50") rfl rfl rfl).2.2.2.1 "12.50" (.finite false [1, 2, 5, 0] (-2))
      rfl (by decide)⟩

/-- A payload whose `category` names a metaclass attribute rather than an
enum member. -/
def dataCatMro : PyDict :=
  [("name", .pyStr "hammer"), ("description", .pyStr "tool"), ("price", .pyStr "12.50"),
   ("available", .pyBool true), ("category", .pyStr "mro")]

/-- C3 (code bug): `getattr(Category, "mro")` resolves to the metaclass
method `mro` instead of raising `AttributeError`, so `deserialize`
*succeeds* on the name `"mro"` and stores a non-member object in
`category`, although the claim (and the spec) require every name outside
the six variants to fail with `InvalidAttribute`. -/
theorem claim_C3_getattr_leak :
    (Product.deserialize {} dataCatMro).2 =
      .ok { name := .pyStr "hammer", description := .pyStr "tool",
            price := .pyDec (.finite false [1, 2, 5, 0] (-2)),
            available := .pyBool true, category := .pyCatAttr "mro" } := by
  decide

/-- A record with a NaN price: `Decimal("NaN")` is a legal decimal value,
every other field is valid, and `str`/parse round-trips it exactly. -/
def recNaN : Product :=
  { id := .pyInt 4, name := .pyStr "widget", description := .pyStr "desc",
    price := .pyDec (.nan false []), available := .pyBool true,
    category := .pyCat .TOOLS }

/-- C1 as stated is false at a NaN price: the record is valid (non-empty
strings, a decimal price, a boolean, an enum member), serialization and
deserialization round-trip the NaN exactly, but the reproduced price is
not decimal-equal to the original because a NaN compares unequal to
everything, itself included. -/
theorem claim_C1_counterexample :
    (PyDec.nan false []).WF ∧
    Product.serialize recNaN =
      .ok [("id", .pyInt 4), ("name", .pyStr "widget"), ("description", .pyStr "desc"),
           ("price", .pyStr "NaN"), ("available", .pyBool true),
           ("category", .pyStr "TOOLS")] ∧
    (Product.deserialize {}
        [("id", .pyInt 4), ("name", .pyStr "widget"), ("description", .pyStr "desc"),
         ("price", .pyStr "NaN"), ("available", .pyBool true),
         ("category", .pyStr "TOOLS")]).2 =
      .ok { name := .pyStr "widget", description := .pyStr "desc",
            price := .pyDec (.nan false []), available := .pyBool true,
            category := .pyCat .TOOLS } ∧
    decNumEq (.nan false []) (.nan false []) = false := by
  decide

/-- C1, amended: for every valid record (non-empty name and description, a
well-formed decimal price, a boolean flag, an enum category),
deserializing the serialized mapping reproduces the same name, the same
description, the same available flag, the same category, and the very same
decimal price; the reproduced price is additionally decimal-equal to the
original whenever the price is not a NaN. -/
theorem claim_C1_roundtrip (rec p0 : Product) (n dsc : String) (d : PyDec) (b : Bool)
    (c : Category) (hn : rec.name = .pyStr n) (_hne : n ≠ "")
    (hd : rec.description = .pyStr dsc) (_hde : dsc ≠ "")
    (hp : rec.price = .pyDec d) (hwf : d.WF)
    (ha : rec.available = .pyBool b) (hc : rec.category = .pyCat c) :
    Product.serialize rec =
      .ok [("id", rec.id), ("name", .pyStr n), ("description", .pyStr dsc),
           ("price", .pyStr (decStr d)), ("available", .pyBool b),
           ("category", .pyStr c.name)] ∧
    (Product.deserialize p0
        [("id", rec.id), ("name", .pyStr n), ("description", .pyStr dsc),
         ("price", .pyStr (decStr d)), ("available", .pyBool b),
         ("category", .pyStr c.name)]).2 =
      .ok { p0 with
            name := .pyStr n, description := .pyStr dsc, price := .pyDec d,
            available := .pyBool b, category := .pyCat c } ∧
    (d.isNaN = false → decNumEq d d = true) := by
  refine ⟨?_, ?_, fun hnan => decNumEq_self d hnan⟩
  · unfold Product.serialize catNameOf
    rw [hn, hd, hp, ha, hc]
    rfl
  · have h1 : dictGet [("id", rec.id), ("name", .pyStr n), ("description", .pyStr dsc),
        ("price", .pyStr (decStr d)), ("available", .pyBool b),
        ("category", .pyStr c.name)] "name" = some (.pyStr n) := rfl
    have h2 : dictGet [("id", rec.id), ("name", .pyStr n), ("description", .pyStr dsc),
        ("price", .pyStr (decStr d)), ("available", .pyBool b),
        ("category", .pyStr c.name)] "description" = some (.pyStr dsc) := rfl
    have h3 : dictGet [("id", rec.id), ("name", .pyStr n), ("description", .pyStr dsc),
        ("price", .pyStr (decStr d)), ("available", .pyBool b),
        ("category", .pyStr c.name)] "price" = some (.pyStr (decStr d)) := rfl
    have h4 : dictGet [("id", rec.id), ("name", .pyStr n), ("description", .pyStr dsc),
        ("price", .pyStr (decStr d)), ("available", .pyBool b),
        ("category", .pyStr c.name)] "available" = some (.pyBool b) := rfl
    have h5 : dictGet [("id", rec.id), ("name", .pyStr n), ("description", .pyStr dsc),
        ("price", .pyStr (decStr d)), ("available", .pyBool b),
        ("category", .pyStr c.name)] "category" = some (.pyStr c.name) := rfl
    have hpr := priceOfRaw_decStr d hwf
    have hcat := getattrCategory_name c
    simp [Product.deserialize, deserializeSteps, h1, h2, h3, h4, h5, hpr, hcat, isPyBool]

/-- A concrete valid record for the round-trip law. -/
def recC1 : Product :=
  { id := .pyInt 3, name := .pyStr "hammer", description := .pyStr "tool",
    price := .pyDec (.finite false [1, 2, 5, 0] (-2)), available := .pyBool true,
    category := .pyCat .TOOLS }

theorem claim_C1_roundtrip_witness :
    Product.serialize recC1 =
      .ok [("id", .pyInt 3), ("name", .pyStr "hammer"), ("description", .pyStr "tool"),
           ("price", .pyStr "12.50"), ("available", .pyBool true),
           ("category", .pyStr "TOOLS")] ∧
    (Product.deserialize {}
        [("id", .pyInt 3), ("name", .pyStr "hammer"), ("description", .pyStr "tool"),
         ("price", .pyStr "12.50"), ("available", .pyBool true),
         ("category", .pyStr "TOOLS")]).2 =
      .ok { name := .pyStr "hammer", description := .pyStr "tool",
            price := .pyDec (.finite false [1, 2, 5, 0] (-2)),
            available := .pyBool true, category := .pyCat .TOOLS } ∧
    ((PyDec.finite false [1, 2, 5, 0] (-2)).isNaN = false →
      decNumEq (.finite false [1, 2, 5, 0] (-2)) (.finite false [1, 2, 5, 0] (-2)) = true) :=
  claim_C1_roundtrip recC1 {} "hammer" "tool" (.finite false [1, 2, 5, 0] (-2)) true
    .TOOLS rfl (by decide) rfl (by decide) rfl (by decide) rfl rfl

/-- C6: once the price argument is normalized, `find_by_price` filters by
decimal numeric equality, so any two price arguments that normalize to
numerically equal decimals — a decimal object, a numeric literal, or a
quoted/padded string for the same value — return identical result sets on
every store. -/
theorem claim_C6_find_by_price_shapes (s : Store) (v1 v2 : PyVal) (d1 d2 : PyDec)
    (h1 : normalizePrice v1 = .ok (.pyDec d1))
    (h2 : normalizePrice v2 = .ok (.pyDec d2))
    (h12 : decNumEq d1 d2 = true) :
    Product.find_by_price s v1 = Product.find_by_price s v2 := by
  unfold Product.find_by_price
  rw [h1, h2]
  show Except.ok (List.filter (fun r => priceMatches r.price (.pyDec d1)) s) =
    Except.ok (List.filter (fun r => priceMatches r.price (.pyDec d2)) s)
  congr 1
  apply List.filter_congr
  intro r hr
  cases r.price with
  | pyDec a => exact decNumEq_congr a d1 d2 h12
  | pyNone => rfl
  | pyBool b => rfl
  | pyInt n => rfl
  | pyFloat f => rfl
  | pyStr st => rfl
  | pyCat c => rfl
  | pyCatAttr s2 => rfl
  | pyOther t => rfl

/-- A two-row store for the price-shape law. -/
def storeC6 : Store :=
  [{ id := .pyInt 1, name := .pyStr "hammer", description := .pyStr "tool",
     price := .pyDec (.finite false [1, 2, 5, 0] (-2)), available := .pyBool true,
     category := .pyCat .TOOLS },
   { id := .pyInt 2, name := .pyStr "tee", description := .pyStr "shirt",
     price := .pyDec (.finite false [2, 1] 0), available := .pyBool false,
     category := .pyCat .CLOTHS }]

theorem claim_C6_find_by_price_shapes_witness :
    Product.find_by_price storeC6 (.pyStr " \"12.50\" ") =
      Product.find_by_price storeC6 (.pyFloat "12.5") ∧
    Product.find_by_price storeC6 (.pyStr " \"12.50\" ") =
      Product.find_by_price storeC6 (.pyDec (.finite false [1, 2, 5] (-1))) :=
  ⟨claim_C6_find_by_price_shapes storeC6 (.pyStr " \"12.50\" ") (.pyFloat "12.5")
      (.finite false [1, 2, 5, 0] (-2)) (.finite false [1, 2, 5] (-1))
      (by decide) (by decide) (by decide),
   claim_C6_find_by_price_shapes storeC6 (.pyStr " \"12.50\" ")
      (.pyDec (.finite false [1, 2, 5] (-1)))
      (.finite false [1, 2, 5, 0] (-2)) (.finite false [1, 2, 5] (-1))
      (by decide) (by decide) (by decide)⟩
